import Mathlib

/-!
Verification development for the Medical AI Assistant retrieval core
(src/src/ingestion.py, src/src/embed_index.py, src/src/retriever.py).

Python strings are embedded as lists of characters (`Str`); Python floats
as exact rationals (the claims under study are structural: filtering,
ordering, ranking, padding); Python dicts holding chunk records as explicit
structures; methods that read `self` as functions threading an explicit
state value, returning the state unchanged exactly when the method body
assigns nothing to `self`; methods that can raise as `Except`.

External libraries (tiktoken, sklearn, sentence-transformers, faiss) are
not code of the repository; where a claim depends on them they are either
abstracted as function parameters (tokenizer, encoder) or modelled from the
spec and the library documentation (faiss flat index search), as marked by
doc comments starting with the words Modelled from the spec.
-/

set_option maxRecDepth 4000

/-- Python strings, embedded as lists of characters. -/
abbrev Str := List Char

/-- The ASCII whitespace characters: what both the Python regex class \s and
str.strip and str.split treat as whitespace on the ASCII inputs this
repository processes. -/
def isWS (c : Char) : Bool :=
  c = ' ' ∨ c = '\t' ∨ c = '\n' ∨ c = '\r' ∨ c = '\x0b' ∨ c = '\x0c'

/-- Python str.strip(): drop leading and trailing whitespace. -/
def pyStrip (s : Str) : Str :=
  ((s.dropWhile isWS).reverse.dropWhile isWS).reverse

/-- Auxiliary scanner for Python str.split() with no argument: the maximal
whitespace-free runs, with the word accumulated so far held reversed. -/
def splitAux : Str → Str → List Str
  | [], [] => []
  | [], acc => [acc.reverse]
  | c :: cs, acc =>
    if isWS c then
      if acc = [] then splitAux cs [] else acc.reverse :: splitAux cs []
    else splitAux cs (c :: acc)

/-- Python str.split() with no argument: split on whitespace runs, dropping
empty pieces. -/
def pySplit (s : Str) : List Str := splitAux s []

/-- The Python substring test `needle in hay`. -/
def containsSub (needle hay : Str) : Bool :=
  (List.range (hay.length + 1)).any fun i => needle.isPrefixOf (hay.drop i)

/-- Python list indexing `l[i]` as an Option (`none` models IndexError):
a negative index counts from the end of the list. -/
def pyGet {α : Type} (l : List α) (i : Int) : Option α :=
  let j : Int := if 0 ≤ i then i else (l.length : Int) + i
  if 0 ≤ j ∧ j < (l.length : Int) then l.get? j.toNat else none

/-- A chunk record as built by DocumentProcessor.create_chunks
(src/src/ingestion.py lines 89 to 95): the JSON-compatible dictionary with
keys chunk_id, source, text, token_count, chunk_index. -/
structure ChunkRec where
  chunk_id : Str
  source : Str
  text : Str
  token_count : Nat
  chunk_index : Nat
deriving Repr, DecidableEq, Inhabited

namespace DocumentProcessor

/-- Sentence-terminal punctuation, the class [.!?] of the split pattern in
DocumentProcessor.create_chunks. -/
def sentTerm (c : Char) : Bool := c = '.' ∨ c = '!' ∨ c = '?'

/-- Scanner for the Python call re.split on the pattern of a whitespace run
preceded by sentence-terminal punctuation (src/src/ingestion.py line 73):
the accumulated piece is held reversed; at a terminator followed by
whitespace the piece is closed (keeping the terminator, which the
lookbehind does not consume) and the maximal whitespace run skipped. -/
def sentSplitAux : Nat → Str → Str → List Str
  | _, [], acc => [acc.reverse]
  | 0, _ :: _, acc => [acc.reverse]
  | fuel + 1, c :: cs, acc =>
    if sentTerm c ∧ isWS (cs.headD 'x') then
      (c :: acc).reverse :: sentSplitAux fuel (cs.dropWhile isWS) []
    else sentSplitAux fuel cs (c :: acc)

/-- re.split of the text into sentences, as in create_chunks. The fuel
argument bounds the scan; the wrapper supplies the string length, which
the scan never exhausts since every step consumes at least one
character. -/
def sentSplit (text : Str) : List Str := sentSplitAux text.length text []

/-- The space-joined overlap words: Python " ".join. -/
def joinWords : List Str → Str
  | [] => []
  | [w] => w
  | w :: ws => w ++ ' ' :: joinWords ws

/-- DocumentProcessor._get_overlap_text (src/src/ingestion.py lines 116 to
120): the trailing overlap_size words of the text when it has more than
overlap_size words, else no overlap at all. The Python slice
words[-overlap_size:] is the whole list when overlap_size is zero. -/
def _get_overlap_text (overlap_size : Nat) (text : Str) : Str :=
  let words := pySplit text
  let overlap_words :=
    if words.length > overlap_size then
      if overlap_size = 0 then words else words.drop (words.length - overlap_size)
    else []
  joinWords overlap_words

/-- The chunk identifier string of the Python f-string source_chunkid. -/
def mkChunkId (source : Str) (chunk_id : Nat) : Str :=
  source ++ '_' :: (Nat.repr chunk_id).data

/-- The sentence loop of DocumentProcessor.create_chunks
(src/src/ingestion.py lines 78 to 113), with the tokenizer (tiktoken, an
external library) abstracted as the function tok: strip each sentence and
skip empty ones; close the running chunk when appending the sentence would
push the token count over chunk_size and the running chunk is nonempty,
seeding the next chunk with the overlap text; finally flush the running
chunk when its stripped text is nonempty. -/
def chunkLoop (tok : Str → Nat) (chunk_size overlap_size : Nat) (source : Str) :
    List Str → Str → Nat → List ChunkRec
  | [], current_chunk, chunk_id =>
    if pyStrip current_chunk ≠ [] then
      [{ chunk_id := mkChunkId source chunk_id, source := source,
         text := pyStrip current_chunk, token_count := tok current_chunk,
         chunk_index := chunk_id }]
    else []
  | s :: rest, current_chunk, chunk_id =>
    let sentence := pyStrip s
    if sentence = [] then
      chunkLoop tok chunk_size overlap_size source rest current_chunk chunk_id
    else
      let test_chunk :=
        if current_chunk ≠ [] then current_chunk ++ ' ' :: sentence else sentence
      let token_count := tok test_chunk
      if token_count > chunk_size ∧ current_chunk ≠ [] then
        { chunk_id := mkChunkId source chunk_id, source := source,
          text := pyStrip current_chunk, token_count := tok current_chunk,
          chunk_index := chunk_id } ::
        (let overlap_text := _get_overlap_text overlap_size current_chunk
         chunkLoop tok chunk_size overlap_size source rest
           (if overlap_text ≠ [] then overlap_text ++ ' ' :: sentence else sentence)
           (chunk_id + 1))
      else chunkLoop tok chunk_size overlap_size source rest test_chunk chunk_id

/-- DocumentProcessor.create_chunks (src/src/ingestion.py lines 61 to 114). -/
def create_chunks (tok : Str → Nat) (chunk_size overlap_size : Nat)
    (text source : Str) : List ChunkRec :=
  chunkLoop tok chunk_size overlap_size source (sentSplit text) [] 0

/-- The first substitution of clean_text (src/src/ingestion.py line 40):
re.sub of a whitespace run by one space. Every maximal whitespace run,
leading and trailing ones included, becomes a single space; in particular
no newline survives this step. -/
def collapseWsAux : Nat → Str → Str
  | _, [] => []
  | 0, _ :: _ => []
  | fuel + 1, c :: cs =>
    if isWS c then ' ' :: collapseWsAux fuel (cs.dropWhile isWS)
    else c :: collapseWsAux fuel cs

def collapseWs (s : Str) : Str := collapseWsAux s.length s

/-- The second substitution of clean_text (src/src/ingestion.py line 43):
remove each occurrence of the word Page, a space and a maximal digit run,
scanning left to right without overlap. -/
def removePageAux : Nat → Str → Str
  | _, [] => []
  | 0, _ :: _ => []
  | fuel + 1, c :: cs =>
    if (c :: cs).take 5 = "Page ".data ∧
        ((c :: cs).drop 5).takeWhile Char.isDigit ≠ [] then
      removePageAux fuel (((c :: cs).drop 5).dropWhile Char.isDigit)
    else c :: removePageAux fuel cs

def removePage (s : Str) : Str := removePageAux s.length s

/-- Whether a newline-free string matches the whole pattern of a digit run
followed by optional whitespace (the MULTILINE pattern of
src/src/ingestion.py line 44). -/
def digitLine (s : Str) : Bool :=
  !(s.takeWhile Char.isDigit).isEmpty && (s.dropWhile Char.isDigit).all isWS

/-- The third substitution of clean_text (src/src/ingestion.py line 44).
The input reaching this step has already had every whitespace run collapsed
to a single space, so it contains no newline and the MULTILINE line anchors
can only match the whole string: re.sub then erases the string when it is a
digit run with trailing whitespace, and does nothing otherwise. -/
def subDigitsLine (s : Str) : Str := if digitLine s then [] else s

/-- Whether a newline-free string matches the whole header pattern of ten or
more characters drawn from uppercase letters and whitespace
(src/src/ingestion.py line 47). -/
def capsLine (s : Str) : Bool :=
  decide (10 ≤ s.length) && s.all fun c => c.isUpper || isWS c

/-- The fourth substitution of clean_text (src/src/ingestion.py line 47),
under the same no-newline precondition as subDigitsLine. -/
def subCapsLine (s : Str) : Str := if capsLine s then [] else s

/-- The character class of the URL pattern of clean_text
(src/src/ingestion.py line 50): letters, digits, the character range from
dollar (36) to underscore (95), and the listed punctuation. The percent
escape alternative of the pattern is subsumed: percent (37) already lies in
the range. -/
def urlChar (c : Char) : Bool :=
  c.isAlpha || c.isDigit || (decide (36 ≤ c.toNat) && decide (c.toNat ≤ 95)) ||
    ['@', '.', '&', '+', '!', '*', '\\', '(', ')', ','].contains c

/-- The fifth substitution of clean_text (src/src/ingestion.py line 50):
remove each maximal URL-shaped run, the scheme followed by at least one
character of the class. -/
def removeURLAux : Nat → Str → Str
  | _, [] => []
  | 0, _ :: _ => []
  | fuel + 1, c :: cs =>
    if (c :: cs).take 7 = "http://".data ∧
        ((c :: cs).drop 7).takeWhile urlChar ≠ [] then
      removeURLAux fuel (((c :: cs).drop 7).dropWhile urlChar)
    else if (c :: cs).take 8 = "https://".data ∧
        ((c :: cs).drop 8).takeWhile urlChar ≠ [] then
      removeURLAux fuel (((c :: cs).drop 8).dropWhile urlChar)
    else c :: removeURLAux fuel cs

def removeURL (s : Str) : Str := removeURLAux s.length s

/-- The sixth substitution of clean_text (src/src/ingestion.py line 53):
replace a newline, a whitespace run and a further newline by two newlines.
A match starts at a newline whose following maximal whitespace run contains
another newline; the greedy whitespace star backtracks to end at the last
newline of that run, so the whitespace after that last newline is kept. -/
def collapseBlankAux : Nat → Str → Str
  | _, [] => []
  | 0, _ :: _ => []
  | fuel + 1, c :: cs =>
    if c = '\n' ∧ (cs.takeWhile isWS).contains '\n' then
      let run := cs.takeWhile isWS
      let keep := (run.reverse.takeWhile fun x => x ≠ '\n').reverse
      '\n' :: '\n' :: collapseBlankAux fuel (keep ++ cs.drop run.length)
    else c :: collapseBlankAux fuel cs

def collapseBlank (s : Str) : Str := collapseBlankAux s.length s

/-- DocumentProcessor.clean_text (src/src/ingestion.py lines 29 to 55): the
six substitutions in program order, then a final strip. -/
def clean_text (text : Str) : Str :=
  pyStrip (collapseBlank (removeURL (subCapsLine (subDigitsLine (removePage (collapseWs text))))))

end DocumentProcessor

/-- A vector of term weights, a row of the embedding matrix. Python float32
arithmetic is embedded as exact rationals: the claims under study concern
filtering, ordering, ranking and padding, not rounding. -/
abbrev Vec := List ℚ

/-- The inner product of two vectors, the similarity score of the flat
inner-product index. -/
def dotQ (a b : Vec) : ℚ := (List.zipWith (fun x y => x * y) a b).sum

/-- Modelled from the spec and the FAISS documentation: the score FAISS
writes into result slots beyond the number of stored vectors, the lowest
representable float, far below the similarity range of normalized vectors. -/
def sentinelScore : ℚ := -(2 ^ 128)

/-- The result ordering of the flat index: higher score first, ties broken
by lower vector id. -/
def candLE (a b : ℚ × Int) : Prop := b.1 < a.1 ∨ (a.1 = b.1 ∧ a.2 ≤ b.2)

instance : DecidableRel candLE := fun a b => by
  unfold candLE; exact inferInstance

instance : IsTotal (ℚ × Int) candLE where
  total a b := by
    unfold candLE
    rcases lt_trichotomy a.1 b.1 with h | h | h
    · exact Or.inr (Or.inl h)
    · rcases le_total a.2 b.2 with h2 | h2
      · exact Or.inl (Or.inr ⟨h, h2⟩)
      · exact Or.inr (Or.inr ⟨h.symm, h2⟩)
    · exact Or.inl (Or.inl h)

instance : IsTrans (ℚ × Int) candLE where
  trans a b c hab hbc := by
    unfold candLE at *
    rcases hab with h1 | ⟨e1, i1⟩
    · rcases hbc with h2 | ⟨e2, i2⟩
      · exact Or.inl (h2.trans h1)
      · exact Or.inl (e2 ▸ h1)
    · rcases hbc with h2 | ⟨e2, i2⟩
      · exact Or.inl (e1 ▸ h2)
      · exact Or.inr ⟨e1.trans e2, i1.trans i2⟩

/-- A FAISS flat inner-product index: the stored vectors, ids equal to
insertion positions. -/
structure FaissIndex where
  vectors : List Vec

/-- The scored candidates of a query against every stored vector, in id
order. -/
def candPairs (fi : FaissIndex) (qv : Vec) : List (ℚ × Int) :=
  (List.range fi.vectors.length).map fun i => (dotQ qv (fi.vectors.getD i []), (i : Int))

/-- The valid top-k of a query: all candidates sorted by descending score
with ties broken by ascending id, truncated to k. -/
def faissTop (fi : FaissIndex) (qv : Vec) (k : Nat) : List (ℚ × Int) :=
  (List.insertionSort candLE (candPairs fi qv)).take k

/-- Modelled from the spec and the FAISS documentation:
faiss.IndexFlatIP.search for one query row. Exhaustive inner-product
comparison against every stored vector, the k best returned in descending
score order with ties broken by ascending id; when k exceeds the number of
stored vectors the remaining slots are filled with id -1 and the sentinel
score. The FAISS library is external to the repository. -/
def faissSearch (fi : FaissIndex) (qv : Vec) (k : Nat) : List (ℚ × Int) :=
  faissTop fi qv k ++
    List.replicate (k - (faissTop fi qv k).length) (sentinelScore, (-1 : Int))

/-- A JSON scalar of the model_info summary file. -/
inductive JVal
  | jstr (s : String)
  | jnat (n : Nat)
deriving Repr, DecidableEq

/-- The four artifacts EmbeddingIndexer.save_index writes
(src/src/embed_index.py lines 84 to 122) as one value: the index blob, the
chunk metadata, the embedding matrix, the pickled vectorizer, and the
model_info summary object. -/
structure Artifacts where
  faiss_index : FaissIndex
  chunks_data : List ChunkRec
  embeddings : List Vec
  vectorizer : Str → Vec
  model_info : List (String × JVal)

namespace EmbeddingIndexer

/-- The state of an EmbeddingIndexer (src/src/embed_index.py lines 22 to
37). The sklearn vectorizer is external to the repository: the fitted
transform composed with faiss.normalize_L2 is abstracted as a
query-to-vector function, and fitting as the oracle fitOracle; before
load_index or create_embeddings runs, vectorizer stands for the unfitted
object, absent here, and index is None. -/
structure IndexerState where
  fitOracle : List Str → (Str → Vec) × List Vec
  vectorizer : Option (Str → Vec)
  embeddings : Option (List Vec)
  index : Option FaissIndex
  chunks_data : List ChunkRec

/-- A result dictionary of search_similar: a copy of a chunk record
extended with the similarity score (no rank field here). -/
structure SimilarChunk where
  chunk : ChunkRec
  similarity_score : ℚ
deriving Repr, DecidableEq

/-- EmbeddingIndexer.create_embeddings (src/src/embed_index.py lines 39 to
59). Modelled from the spec for the sklearn part: fit_transform on an
empty corpus raises (EmptyCorpusError); on a nonempty corpus it fits the
vectorizer and returns the embedding matrix, here through the abstract
oracle. -/
def create_embeddings (ist : IndexerState) (chunks : List ChunkRec) :
    IndexerState × Except String (List Vec) :=
  let texts := chunks.map fun c => c.text
  if texts = [] then (ist, Except.error "EmptyCorpusError")
  else
    let fitted := ist.fitOracle texts
    ({ ist with vectorizer := some fitted.1 }, Except.ok fitted.2)

/-- EmbeddingIndexer.save_index (src/src/embed_index.py lines 84 to 122):
write the index, the chunk list, the embedding matrix and the vectorizer,
and a model_info object whose dimension entry is stored under the key
embedding_dimension. -/
def save_index (model_name : String) (index : FaissIndex)
    (chunks_data : List ChunkRec) (embeddings : List Vec)
    (vectorizer : Str → Vec) : Artifacts :=
  { faiss_index := index
    chunks_data := chunks_data
    embeddings := embeddings
    vectorizer := vectorizer
    model_info :=
      [("model_name", JVal.jstr model_name),
       ("embedding_dimension", JVal.jnat (embeddings.headD []).length),
       ("num_chunks", JVal.jnat chunks_data.length),
       ("index_type", JVal.jstr "FAISS_IndexFlatIP")] }

/-- EmbeddingIndexer.load_index (src/src/embed_index.py lines 124 to 154):
read the four artifacts back and install them on the state; model_info is
not read on this path. -/
def load_index (ist : IndexerState) (a : Artifacts) :
    IndexerState × (FaissIndex × List ChunkRec × List Vec × (Str → Vec)) :=
  ({ ist with vectorizer := some a.vectorizer
              embeddings := some a.embeddings
              index := some a.faiss_index
              chunks_data := a.chunks_data },
   (a.faiss_index, a.chunks_data, a.embeddings, a.vectorizer))

/-- The result loop of EmbeddingIndexer.search_similar
(src/src/embed_index.py lines 178 to 183): for each returned row whose id
is below the chunk count, append a copy of the chunk read by Python list
indexing (negative ids count from the end); an id that passes the guard but
indexes an empty list (the padded id -1 when no chunk is stored) raises
IndexError, which aborts the call. -/
def simLoop (chunks_data : List ChunkRec) :
    List (ℚ × Int) → Except String (List SimilarChunk)
  | [] => Except.ok []
  | p :: ps =>
    if p.2 < (chunks_data.length : Int) then
      match pyGet chunks_data p.2 with
      | some c => (simLoop chunks_data ps).map
          (fun rest => { chunk := c, similarity_score := p.1 } :: rest)
      | none => Except.error "IndexError: list index out of range"
    else simLoop chunks_data ps

/-- EmbeddingIndexer.search_similar (src/src/embed_index.py lines 156 to
185): raise when the index or vectorizer is absent; otherwise encode the
query, search the index, and run the result loop over the returned rows.
The state is returned unchanged: the method assigns nothing to self. -/
def search_similarS (ist : IndexerState) (query : Str) (k : Nat) :
    IndexerState × Except String (List SimilarChunk) :=
  match ist.index, ist.vectorizer with
  | some fi, some vz =>
    let query_embedding := vz query
    let pairs := faissSearch fi query_embedding k
    (ist, simLoop ist.chunks_data pairs)
  | _, _ => (ist, Except.error "Index not loaded. Call load_index() first.")

end EmbeddingIndexer

namespace MedicalRetriever

/-- The state of a MedicalRetriever (src/src/retriever.py lines 21 to 36).
The sentence-transformer model is external to the repository: its encode
composed with faiss.normalize_L2 is abstracted as the function encode;
index is None until load_index succeeds. -/
structure RetrieverState where
  encode : Str → Vec
  index : Option FaissIndex
  chunks_data : List ChunkRec
  dimension : Option JVal
  is_loaded : Bool

/-- A result dictionary of MedicalRetriever.search: a copy of a chunk
record extended with similarity_score and rank. -/
structure RetrievedChunk where
  chunk : ChunkRec
  similarity_score : ℚ
  rank : Nat
deriving Repr, DecidableEq

/-- MedicalRetriever.load_index (src/src/retriever.py lines 38 to 70): the
try block assigns the index and the chunk list, then reads
model_info["dimension"]; a missing key raises KeyError, which the except
clause turns into the return value False, leaving is_loaded unset. -/
def load_index (st : RetrieverState) (a : Artifacts) : RetrieverState × Bool :=
  let st1 := { st with index := some a.faiss_index }
  let st2 := { st1 with chunks_data := a.chunks_data }
  match List.lookup "dimension" a.model_info with
  | some d =>
    ({ st2 with dimension := some d
                is_loaded := true }, true)
  | none => (st2, false)

/-- The result loop of MedicalRetriever.search (src/src/retriever.py lines
95 to 101): enumerate the returned rows; keep a row when its score is at
least min_score and its id below the chunk count (Python and evaluates the
score test first, so a row failing it never reaches the indexing); the
kept row copies its chunk by Python list indexing and records the
enumeration position plus one as rank; an id that passes the guard but
indexes an empty list raises IndexError, which aborts the call. -/
def retrLoop (chunks_data : List ChunkRec) (min_score : ℚ) :
    List (Nat × (ℚ × Int)) → Except String (List RetrievedChunk)
  | [] => Except.ok []
  | ip :: ips =>
    if min_score ≤ ip.2.1 ∧ ip.2.2 < (chunks_data.length : Int) then
      match pyGet chunks_data ip.2.2 with
      | some c => (retrLoop chunks_data min_score ips).map
          (fun rest => { chunk := c, similarity_score := ip.2.1,
                         rank := ip.1 + 1 } :: rest)
      | none => Except.error "IndexError: list index out of range"
    else retrLoop chunks_data min_score ips

/-- The filter stage of MedicalRetriever.search: the result loop run over
the enumerated rows. -/
def retrFilter (chunks_data : List ChunkRec) (min_score : ℚ)
    (pairs : List (ℚ × Int)) : Except String (List RetrievedChunk) :=
  retrLoop chunks_data min_score pairs.enum

/-- MedicalRetriever.search (src/src/retriever.py lines 72 to 103): raise
when not loaded; otherwise encode the query, search the index for k rows,
and filter them with retrFilter. The state is returned unchanged: the
method assigns nothing to self. -/
def searchS (st : RetrieverState) (query : Str) (k : Nat) (min_score : ℚ) :
    RetrieverState × Except String (List RetrievedChunk) :=
  if st.is_loaded = false then
    (st, Except.error "Index not loaded. Please call load_index() first.")
  else
    let query_embedding := st.encode query
    match st.index with
    | none => (st, Except.error "AttributeError: NoneType has no attribute search")
    | some fi =>
      let pairs := faissSearch fi query_embedding k
      (st, retrFilter st.chunks_data min_score pairs)

/-- The re-ranking the spec describes: renumber a result list 1, 2, 3 and
so on in order. Stated from the claim wording, for comparison with what
the code computes. -/
def reRank (rs : List RetrievedChunk) : List RetrievedChunk :=
  rs.enum.map fun ir => { ir.2 with rank := ir.1 + 1 }

end MedicalRetriever

/-- A concrete instantiation of the abstract tiktoken tokenizer: one token
per whitespace-separated word. Used to evaluate the chunker on concrete
inputs. -/
def wcount (s : Str) : Nat := (pySplit s).length

/-- A string with no leading and no trailing whitespace (vacuously true of
the empty string). The running chunk of DocumentProcessor.create_chunks
always satisfies this. -/
def Clean (s : Str) : Prop :=
  (∀ c, s.head? = some c → isWS c = false) ∧
  (∀ c, s.getLast? = some c → isWS c = false)

/-- The shapes the running chunk of DocumentProcessor.create_chunks can
have, relative to a set S of sentence candidates: empty, within the token
budget, a single stripped sentence of S, or an overlap seed followed by a
space and a stripped sentence of S. -/
def ChunkShape (tok : Str → Nat) (chunk_size : Nat) (S : List Str)
    (current : Str) : Prop :=
  current = [] ∨ tok current ≤ chunk_size ∨
    (∃ s ∈ S, current = pyStrip s) ∨
    (∃ ov s, s ∈ S ∧ current = ov ++ ' ' :: pyStrip s)

/-! ## General lemmas about the Python string and list primitives -/

theorem pyGet_mem {α : Type} {l : List α} {i : Int} {c : α}
    (h : pyGet l i = some c) : c ∈ l := by
  simp only [pyGet] at h
  split at h <;> split at h <;>
    first
      | exact List.get?_mem h
      | exact absurd h (by simp)

theorem pyGet_nonneg {α : Type} (l : List α) (i : Int)
    (h0 : 0 ≤ i) (hl : i < (l.length : Int)) :
    pyGet l i = l.get? i.toNat := by
  simp only [pyGet, if_pos h0]
  rw [if_pos ⟨h0, hl⟩]

theorem pyGet_neg_one {α : Type} (l : List α) (h : 0 < l.length) :
    pyGet l (-1) = l.get? (l.length - 1) := by
  have h1 : ¬ ((0 : Int) ≤ -1) := by decide
  simp only [pyGet, if_neg h1]
  have h2 : (0 : Int) ≤ (l.length : Int) + -1 ∧ (l.length : Int) + -1 < (l.length : Int) := by
    omega
  rw [if_pos h2]
  congr 1
  omega

theorem filterMap_all_some {α β : Type} (f : α → Option β) (g : α → β) :
    ∀ l : List α, (∀ a ∈ l, f a = some (g a)) → l.filterMap f = l.map g
  | [], _ => rfl
  | a :: l, h => by
    rw [List.filterMap_cons, h a (by simp), List.map_cons,
      filterMap_all_some f g l fun x hx => h x (by simp [hx])]

theorem filterMap_all_none {α β : Type} (f : α → Option β) :
    ∀ l : List α, (∀ a ∈ l, f a = none) → l.filterMap f = []
  | [], _ => rfl
  | a :: l, h => by
    rw [List.filterMap_cons, h a (by simp),
      filterMap_all_none f l fun x hx => h x (by simp [hx])]

theorem enumFrom_map_rank {α : Type} :
    ∀ (n : Nat) (l : List α),
      ((List.enumFrom n l).map fun ip => ip.1 + 1) = List.range' (n + 1) l.length
  | _, [] => rfl
  | n, a :: l => by
    rw [List.enumFrom_cons, List.map_cons, List.length_cons, List.range'_succ,
      enumFrom_map_rank (n + 1) l]

/-! ## Lemmas about the two result loops -/

theorem simLoop_cons (cd : List ChunkRec) (p : ℚ × Int) (ps : List (ℚ × Int)) :
    EmbeddingIndexer.simLoop cd (p :: ps) =
      if p.2 < (cd.length : Int) then
        match pyGet cd p.2 with
        | some c => (EmbeddingIndexer.simLoop cd ps).map
            (fun rest => { chunk := c, similarity_score := p.1 } :: rest)
        | none => Except.error "IndexError: list index out of range"
      else EmbeddingIndexer.simLoop cd ps := rfl

theorem simLoop_all_some (cd : List ChunkRec) (C : ℚ × Int → ChunkRec) :
    ∀ l : List (ℚ × Int),
      (∀ p ∈ l, p.2 < (cd.length : Int) ∧ pyGet cd p.2 = some (C p)) →
      EmbeddingIndexer.simLoop cd l = Except.ok (l.map fun p =>
        { chunk := C p, similarity_score := p.1 })
  | [], _ => rfl
  | p :: l, h => by
    obtain ⟨hg, hget⟩ := h p (by simp)
    rw [simLoop_cons, if_pos hg, hget]
    show (EmbeddingIndexer.simLoop cd l).map _ = _
    rw [simLoop_all_some cd C l (fun x hx => h x (by simp [hx]))]
    rfl

theorem simLoop_append (cd : List ChunkRec) :
    ∀ (l₁ l₂ : List (ℚ × Int)) (r₁ r₂ : List EmbeddingIndexer.SimilarChunk),
      EmbeddingIndexer.simLoop cd l₁ = Except.ok r₁ →
      EmbeddingIndexer.simLoop cd l₂ = Except.ok r₂ →
      EmbeddingIndexer.simLoop cd (l₁ ++ l₂) = Except.ok (r₁ ++ r₂)
  | [], l₂, r₁, r₂, h₁, h₂ => by
    have h0 : Except.ok ([] : List EmbeddingIndexer.SimilarChunk) = Except.ok r₁ := h₁
    rw [Except.ok.injEq] at h0
    subst h0
    rw [List.nil_append, List.nil_append]
    exact h₂
  | p :: l₁, l₂, r₁, r₂, h₁, h₂ => by
    rw [simLoop_cons] at h₁
    rw [List.cons_append, simLoop_cons]
    by_cases hg : p.2 < (cd.length : Int)
    · rw [if_pos hg] at h₁ ⊢
      cases hget : pyGet cd p.2 with
      | none =>
        rw [hget] at h₁
        exact absurd
          (show Except.error "IndexError: list index out of range" = Except.ok r₁
            from h₁) (by simp)
      | some c =>
        rw [hget] at h₁
        have h₁' : (EmbeddingIndexer.simLoop cd l₁).map
            (fun rest => ({ chunk := c, similarity_score := p.1 }
              : EmbeddingIndexer.SimilarChunk) :: rest) = Except.ok r₁ := h₁
        show (EmbeddingIndexer.simLoop cd (l₁ ++ l₂)).map
          (fun rest => ({ chunk := c, similarity_score := p.1 }
            : EmbeddingIndexer.SimilarChunk) :: rest) = Except.ok (r₁ ++ r₂)
        cases hrec : EmbeddingIndexer.simLoop cd l₁ with
        | error e =>
          rw [hrec] at h₁'
          exact absurd h₁' (by simp [Except.map])
        | ok r' =>
          rw [hrec] at h₁'
          have h₁'' : Except.ok (({ chunk := c, similarity_score := p.1 }
              : EmbeddingIndexer.SimilarChunk) :: r') = Except.ok r₁ := h₁'
          rw [Except.ok.injEq] at h₁''
          subst h₁''
          rw [simLoop_append cd l₁ l₂ r' r₂ hrec h₂]
          rfl
    · rw [if_neg hg] at h₁ ⊢
      exact simLoop_append cd l₁ l₂ r₁ r₂ h₁ h₂

theorem simLoop_ok_mem (cd : List ChunkRec) :
    ∀ (l : List (ℚ × Int)) (rs : List EmbeddingIndexer.SimilarChunk),
      EmbeddingIndexer.simLoop cd l = Except.ok rs →
      ∀ r ∈ rs, r.chunk ∈ cd
  | [], rs, h, r, hr => by
    have h0 : Except.ok ([] : List EmbeddingIndexer.SimilarChunk) = Except.ok rs := h
    rw [Except.ok.injEq] at h0
    subst h0
    exact absurd hr (List.not_mem_nil r)
  | p :: l, rs, h, r, hr => by
    rw [simLoop_cons] at h
    by_cases hg : p.2 < (cd.length : Int)
    · rw [if_pos hg] at h
      cases hget : pyGet cd p.2 with
      | none =>
        rw [hget] at h
        exact absurd
          (show Except.error "IndexError: list index out of range" = Except.ok rs
            from h) (by simp)
      | some c =>
        rw [hget] at h
        have h' : (EmbeddingIndexer.simLoop cd l).map
            (fun rest => ({ chunk := c, similarity_score := p.1 }
              : EmbeddingIndexer.SimilarChunk) :: rest) = Except.ok rs := h
        cases hrec : EmbeddingIndexer.simLoop cd l with
        | error e =>
          rw [hrec] at h'
          exact absurd h' (by simp [Except.map])
        | ok r' =>
          rw [hrec] at h'
          have h'' : Except.ok (({ chunk := c, similarity_score := p.1 }
              : EmbeddingIndexer.SimilarChunk) :: r') = Except.ok rs := h'
          rw [Except.ok.injEq] at h''
          subst h''
          rcases List.mem_cons.mp hr with rfl | hr'
          · exact pyGet_mem hget
          · exact simLoop_ok_mem cd l r' hrec r hr'
    · rw [if_neg hg] at h
      exact simLoop_ok_mem cd l rs h r hr

theorem retrLoop_cons (cd : List ChunkRec) (ms : ℚ) (ip : Nat × (ℚ × Int))
    (ips : List (Nat × (ℚ × Int))) :
    MedicalRetriever.retrLoop cd ms (ip :: ips) =
      if ms ≤ ip.2.1 ∧ ip.2.2 < (cd.length : Int) then
        match pyGet cd ip.2.2 with
        | some c => (MedicalRetriever.retrLoop cd ms ips).map
            (fun rest => { chunk := c, similarity_score := ip.2.1,
                           rank := ip.1 + 1 } :: rest)
        | none => Except.error "IndexError: list index out of range"
      else MedicalRetriever.retrLoop cd ms ips := rfl

theorem retrLoop_all_some (cd : List ChunkRec) (ms : ℚ)
    (C : Nat × (ℚ × Int) → ChunkRec) :
    ∀ l : List (Nat × (ℚ × Int)),
      (∀ ip ∈ l, (ms ≤ ip.2.1 ∧ ip.2.2 < (cd.length : Int)) ∧
        pyGet cd ip.2.2 = some (C ip)) →
      MedicalRetriever.retrLoop cd ms l = Except.ok (l.map fun ip =>
        { chunk := C ip, similarity_score := ip.2.1, rank := ip.1 + 1 })
  | [], _ => rfl
  | ip :: l, h => by
    obtain ⟨hg, hget⟩ := h ip (by simp)
    rw [retrLoop_cons, if_pos hg, hget]
    show (MedicalRetriever.retrLoop cd ms l).map _ = _
    rw [retrLoop_all_some cd ms C l (fun x hx => h x (by simp [hx]))]
    rfl

theorem retrLoop_all_skip (cd : List ChunkRec) (ms : ℚ) :
    ∀ l : List (Nat × (ℚ × Int)),
      (∀ ip ∈ l, ¬ (ms ≤ ip.2.1 ∧ ip.2.2 < (cd.length : Int))) →
      MedicalRetriever.retrLoop cd ms l = Except.ok []
  | [], _ => rfl
  | ip :: l, h => by
    rw [retrLoop_cons, if_neg (h ip (by simp))]
    exact retrLoop_all_skip cd ms l (fun x hx => h x (by simp [hx]))

theorem retrLoop_append (cd : List ChunkRec) (ms : ℚ) :
    ∀ (l₁ l₂ : List (Nat × (ℚ × Int)))
      (r₁ r₂ : List MedicalRetriever.RetrievedChunk),
      MedicalRetriever.retrLoop cd ms l₁ = Except.ok r₁ →
      MedicalRetriever.retrLoop cd ms l₂ = Except.ok r₂ →
      MedicalRetriever.retrLoop cd ms (l₁ ++ l₂) = Except.ok (r₁ ++ r₂)
  | [], l₂, r₁, r₂, h₁, h₂ => by
    have h0 : Except.ok ([] : List MedicalRetriever.RetrievedChunk) = Except.ok r₁ := h₁
    rw [Except.ok.injEq] at h0
    subst h0
    rw [List.nil_append, List.nil_append]
    exact h₂
  | ip :: l₁, l₂, r₁, r₂, h₁, h₂ => by
    rw [retrLoop_cons] at h₁
    rw [List.cons_append, retrLoop_cons]
    by_cases hg : ms ≤ ip.2.1 ∧ ip.2.2 < (cd.length : Int)
    · rw [if_pos hg] at h₁ ⊢
      cases hget : pyGet cd ip.2.2 with
      | none =>
        rw [hget] at h₁
        exact absurd
          (show Except.error "IndexError: list index out of range" = Except.ok r₁
            from h₁) (by simp)
      | some c =>
        rw [hget] at h₁
        have h₁' : (MedicalRetriever.retrLoop cd ms l₁).map
            (fun rest => ({ chunk := c, similarity_score := ip.2.1, rank := ip.1 + 1 } : MedicalRetriever.RetrievedChunk) :: rest) =
            Except.ok r₁ := h₁
        show (MedicalRetriever.retrLoop cd ms (l₁ ++ l₂)).map
          (fun rest => ({ chunk := c, similarity_score := ip.2.1, rank := ip.1 + 1 } : MedicalRetriever.RetrievedChunk) :: rest) =
          Except.ok (r₁ ++ r₂)
        cases hrec : MedicalRetriever.retrLoop cd ms l₁ with
        | error e =>
          rw [hrec] at h₁'
          exact absurd h₁' (by simp [Except.map])
        | ok r' =>
          rw [hrec] at h₁'
          have h₁'' : Except.ok (({ chunk := c, similarity_score := ip.2.1, rank := ip.1 + 1 } : MedicalRetriever.RetrievedChunk) :: r') =
              Except.ok r₁ := h₁'
          rw [Except.ok.injEq] at h₁''
          subst h₁''
          rw [retrLoop_append cd ms l₁ l₂ r' r₂ hrec h₂]
          rfl
    · rw [if_neg hg] at h₁ ⊢
      exact retrLoop_append cd ms l₁ l₂ r₁ r₂ h₁ h₂

theorem retrLoop_ok_mem (cd : List ChunkRec) (ms : ℚ) :
    ∀ (l : List (Nat × (ℚ × Int))) (rs : List MedicalRetriever.RetrievedChunk),
      MedicalRetriever.retrLoop cd ms l = Except.ok rs →
      ∀ r ∈ rs, r.chunk ∈ cd
  | [], rs, h, r, hr => by
    have h0 : Except.ok ([] : List MedicalRetriever.RetrievedChunk) = Except.ok rs := h
    rw [Except.ok.injEq] at h0
    subst h0
    exact absurd hr (List.not_mem_nil r)
  | ip :: l, rs, h, r, hr => by
    rw [retrLoop_cons] at h
    by_cases hg : ms ≤ ip.2.1 ∧ ip.2.2 < (cd.length : Int)
    · rw [if_pos hg] at h
      cases hget : pyGet cd ip.2.2 with
      | none =>
        rw [hget] at h
        exact absurd
          (show Except.error "IndexError: list index out of range" = Except.ok rs
            from h) (by simp)
      | some c =>
        rw [hget] at h
        have h' : (MedicalRetriever.retrLoop cd ms l).map
            (fun rest => ({ chunk := c, similarity_score := ip.2.1, rank := ip.1 + 1 } : MedicalRetriever.RetrievedChunk) :: rest) =
            Except.ok rs := h
        cases hrec : MedicalRetriever.retrLoop cd ms l with
        | error e =>
          rw [hrec] at h'
          exact absurd h' (by simp [Except.map])
        | ok r' =>
          rw [hrec] at h'
          have h'' : Except.ok (({ chunk := c, similarity_score := ip.2.1, rank := ip.1 + 1 } : MedicalRetriever.RetrievedChunk) :: r') =
              Except.ok rs := h'
          rw [Except.ok.injEq] at h''
          subst h''
          rcases List.mem_cons.mp hr with rfl | hr'
          · exact pyGet_mem hget
          · exact retrLoop_ok_mem cd ms l r' hrec r hr'
    · rw [if_neg hg] at h
      exact retrLoop_ok_mem cd ms l rs h r hr

/-! ## Claim C2: the relevance gate validate_query -/

/-- C3. EmbeddingIndexer.save_index writes the summary dimension under the
key embedding_dimension, while MedicalRetriever.load_index looks the key
dimension up; the lookup raises KeyError inside the try block, the except
clause returns False, and the retriever never becomes loaded. Loading
therefore fails on every set of artifacts produced by save, for every
corpus. -/
theorem claim_C3_load_rejects_saved :
    ∀ (st : MedicalRetriever.RetrieverState) (model_name : String)
      (index : FaissIndex) (chunks_data : List ChunkRec)
      (embeddings : List Vec) (vectorizer : Str → Vec),
      (MedicalRetriever.load_index st
        (EmbeddingIndexer.save_index model_name index chunks_data embeddings
          vectorizer)).2 = false ∧
      ((MedicalRetriever.load_index st
        (EmbeddingIndexer.save_index model_name index chunks_data embeddings
          vectorizer)).1).is_loaded = st.is_loaded := by
  intro st model_name index chunks_data embeddings vectorizer
  exact ⟨rfl, rfl⟩

/-! ## Claim C8: guard errors before load, and the empty corpus -/

/-- C8. Searching an unloaded retriever raises (the is_loaded guard),
searching an indexer whose index is absent raises (the None guard), and
fitting an empty corpus fails with EmptyCorpusError instead of producing
an index. -/
theorem claim_C8_guard_errors
    (st : MedicalRetriever.RetrieverState) (q : Str) (k : Nat) (ms : ℚ)
    (ist : EmbeddingIndexer.IndexerState)
    (hl : st.is_loaded = false) (hi : ist.index = none) :
    (MedicalRetriever.searchS st q k ms).2 =
      Except.error "Index not loaded. Please call load_index() first." ∧
    (EmbeddingIndexer.search_similarS ist q k).2 =
      Except.error "Index not loaded. Call load_index() first." ∧
    (EmbeddingIndexer.create_embeddings ist []).2 =
      Except.error "EmptyCorpusError" := by
  refine ⟨?_, ?_, rfl⟩
  · simp [MedicalRetriever.searchS, hl]
  · obtain ⟨fo, vz, emb, idx, cd⟩ := ist
    simp only at hi
    subst hi
    rfl

/-- C8, witness: the guards fire on a freshly initialized retriever state
and indexer state. -/
theorem claim_C8_witness :
    (MedicalRetriever.searchS
      { encode := fun _ => []
        index := none
        chunks_data := []
        dimension := none
        is_loaded := false } ("fever".data) 5 0).2 =
      Except.error "Index not loaded. Please call load_index() first." ∧
    (EmbeddingIndexer.search_similarS
      { fitOracle := fun _ => (fun _ => [], [])
        vectorizer := none
        embeddings := none
        index := none
        chunks_data := [] } ("fever".data) 5).2 =
      Except.error "Index not loaded. Call load_index() first." ∧
    (EmbeddingIndexer.create_embeddings
      { fitOracle := fun _ => (fun _ => [], [])
        vectorizer := none
        embeddings := none
        index := none
        chunks_data := [] } []).2 =
      Except.error "EmptyCorpusError" :=
  claim_C8_guard_errors _ ("fever".data) 5 0 _ rfl rfl

/-! ## Claim C9: results are copies, the stored chunks are untouched -/

/-- C9. Both search entry points return their state unchanged (the method
bodies assign nothing to self), and every result they return carries a
chunk equal to one of the stored chunk records: results are fresh
dictionaries extended with the score (and rank), never views that could
alias anything else. -/
theorem claim_C9_results_are_copies
    (st : MedicalRetriever.RetrieverState) (q : Str) (k : Nat) (ms : ℚ)
    (ist : EmbeddingIndexer.IndexerState) :
    (MedicalRetriever.searchS st q k ms).1 = st ∧
    (EmbeddingIndexer.search_similarS ist q k).1 = ist ∧
    (∀ rs, (MedicalRetriever.searchS st q k ms).2 = Except.ok rs →
      ∀ r ∈ rs, r.chunk ∈ st.chunks_data) ∧
    (∀ rs, (EmbeddingIndexer.search_similarS ist q k).2 = Except.ok rs →
      ∀ r ∈ rs, r.chunk ∈ ist.chunks_data) := by
  refine ⟨?_, ?_, ?_, ?_⟩
  · unfold MedicalRetriever.searchS
    split
    · rfl
    · split <;> rfl
  · unfold EmbeddingIndexer.search_similarS
    split <;> rfl
  · intro rs hrs r hr
    unfold MedicalRetriever.searchS at hrs
    split at hrs
    · exact absurd hrs (by simp)
    · split at hrs
      · exact absurd hrs (by simp)
      · unfold MedicalRetriever.retrFilter at hrs
        exact retrLoop_ok_mem _ _ _ rs hrs r hr
  · intro rs hrs r hr
    unfold EmbeddingIndexer.search_similarS at hrs
    split at hrs
    · exact simLoop_ok_mem _ _ rs hrs r hr
    · exact absurd hrs (by simp)

/-- C9, witness: the properties at one concrete loaded state with one
stored chunk and a query returning it. -/
theorem claim_C9_witness :
    (MedicalRetriever.searchS
      { encode := fun _ => [1]
        index := some { vectors := [[1]] }
        chunks_data := [{ chunk_id := "w_0".data, source := "w".data,
                          text := "drink water".data, token_count := 2,
                          chunk_index := 0 }]
        dimension := none
        is_loaded := true } ("water".data) 1 0).1 =
      { encode := fun _ => [1]
        index := some { vectors := [[1]] }
        chunks_data := [{ chunk_id := "w_0".data, source := "w".data,
                          text := "drink water".data, token_count := 2,
                          chunk_index := 0 }]
        dimension := none
        is_loaded := true } ∧
    (EmbeddingIndexer.search_similarS
      { fitOracle := fun _ => (fun _ => [], [])
        vectorizer := some fun _ => [1]
        embeddings := none
        index := some { vectors := [[1]] }
        chunks_data := [{ chunk_id := "w_0".data, source := "w".data,
                          text := "drink water".data, token_count := 2,
                          chunk_index := 0 }] } ("water".data) 1).1 =
      { fitOracle := fun _ => (fun _ => [], [])
        vectorizer := some fun _ => [1]
        embeddings := none
        index := some { vectors := [[1]] }
        chunks_data := [{ chunk_id := "w_0".data, source := "w".data,
                          text := "drink water".data, token_count := 2,
                          chunk_index := 0 }] } ∧
    (∀ rs, (MedicalRetriever.searchS
      { encode := fun _ => [1]
        index := some { vectors := [[1]] }
        chunks_data := [{ chunk_id := "w_0".data, source := "w".data,
                          text := "drink water".data, token_count := 2,
                          chunk_index := 0 }]
        dimension := none
        is_loaded := true } ("water".data) 1 0).2 = Except.ok rs →
      ∀ r ∈ rs, r.chunk ∈
        [({ chunk_id := "w_0".data, source := "w".data,
            text := "drink water".data, token_count := 2,
            chunk_index := 0 } : ChunkRec)]) ∧
    (∀ rs, (EmbeddingIndexer.search_similarS
      { fitOracle := fun _ => (fun _ => [], [])
        vectorizer := some fun _ => [1]
        embeddings := none
        index := some { vectors := [[1]] }
        chunks_data := [{ chunk_id := "w_0".data, source := "w".data,
                          text := "drink water".data, token_count := 2,
                          chunk_index := 0 }] } ("water".data) 1).2 = Except.ok rs →
      ∀ r ∈ rs, r.chunk ∈
        [({ chunk_id := "w_0".data, source := "w".data,
            text := "drink water".data, token_count := 2,
            chunk_index := 0 } : ChunkRec)]) :=
  claim_C9_results_are_copies _ ("water".data) 1 0 _

/-! ## Lemmas about the modelled flat index search -/

theorem candPairs_length (fi : FaissIndex) (qv : Vec) :
    (candPairs fi qv).length = fi.vectors.length := by
  simp [candPairs]

theorem candPairs_mem {fi : FaissIndex} {qv : Vec} {p : ℚ × Int}
    (h : p ∈ candPairs fi qv) :
    0 ≤ p.2 ∧ p.2 < (fi.vectors.length : Int) ∧
      p.1 = dotQ qv (fi.vectors.getD p.2.toNat []) := by
  unfold candPairs at h
  rw [List.mem_map] at h
  obtain ⟨i, hi, rfl⟩ := h
  rw [List.mem_range] at hi
  refine ⟨Int.ofNat_nonneg i, ?_, by simp⟩
  show (i : Int) < (fi.vectors.length : Int)
  exact_mod_cast hi

theorem faissTop_length (fi : FaissIndex) (qv : Vec) (k : Nat) :
    (faissTop fi qv k).length = min k fi.vectors.length := by
  unfold faissTop
  rw [List.length_take, (List.perm_insertionSort candLE _).length_eq, candPairs_length]

theorem faissTop_subset {fi : FaissIndex} {qv : Vec} {k : Nat} {p : ℚ × Int}
    (h : p ∈ faissTop fi qv k) : p ∈ candPairs fi qv :=
  (List.perm_insertionSort candLE _).subset ((List.take_sublist _ _).subset h)

theorem faissTop_sorted (fi : FaissIndex) (qv : Vec) (k : Nat) :
    List.Pairwise candLE (faissTop fi qv k) :=
  List.Pairwise.sublist (List.take_sublist _ _) (List.sorted_insertionSort candLE _)

theorem faissTop_ids_nodup (fi : FaissIndex) (qv : Vec) (k : Nat) :
    List.Pairwise (fun a b : ℚ × Int => a.2 ≠ b.2) (faissTop fi qv k) := by
  have hcand : List.Pairwise (fun a b : ℚ × Int => a.2 ≠ b.2) (candPairs fi qv) := by
    rw [← List.pairwise_map (f := Prod.snd)]
    have hm : (candPairs fi qv).map Prod.snd =
        (List.range fi.vectors.length).map Int.ofNat := by
      simp [candPairs, List.map_map, Function.comp]
    rw [hm]
    exact List.Pairwise.map _ (fun a b hab => by simpa using hab)
      (List.nodup_range fi.vectors.length)
  have hsorted :
      List.Pairwise (fun a b : ℚ × Int => a.2 ≠ b.2)
        (List.insertionSort candLE (candPairs fi qv)) :=
    (((List.perm_insertionSort candLE _).pairwise_iff
      fun {a b} h => Ne.symm h)).mpr hcand
  exact hsorted.sublist (List.take_sublist _ _)

theorem faissTop_pairwise_strict (fi : FaissIndex) (qv : Vec) (k : Nat) :
    List.Pairwise (fun a b : ℚ × Int => b.1 < a.1 ∨ (a.1 = b.1 ∧ a.2 < b.2))
      (faissTop fi qv k) := by
  refine ((faissTop_sorted fi qv k).and (faissTop_ids_nodup fi qv k)).imp ?_
  rintro a b ⟨hle | ⟨heq, hle⟩, hne⟩
  · exact Or.inl hle
  · exact Or.inr ⟨heq, lt_of_le_of_ne hle hne⟩

theorem filterMap_replicate_some {α β : Type} (m : Nat) (x : α) (f : α → Option β)
    (y : β) (h : f x = some y) :
    (List.replicate m x).filterMap f = List.replicate m y := by
  induction m with
  | zero => rfl
  | succ n ih => rw [List.replicate_succ, List.filterMap_cons, h, List.replicate_succ, ih]

theorem filterMap_replicate_none {α β : Type} (m : Nat) (x : α) (f : α → Option β)
    (h : f x = none) :
    (List.replicate m x).filterMap f = [] := by
  induction m with
  | zero => rfl
  | succ n ih => rw [List.replicate_succ, List.filterMap_cons, h, ih]

/-- The normal form of search_similar on a loaded, aligned state with at
least one stored chunk: the true nearest neighbors in order, followed by
padding copies of the last stored chunk with the sentinel score whenever k
exceeds the number of stored vectors. (With no stored chunk and positive k
the call raises IndexError instead; see claim_C6_topk_length_order.) -/
theorem search_similar_norm
    (ist : EmbeddingIndexer.IndexerState) (fi : FaissIndex) (vz : Str → Vec)
    (q : Str) (k : Nat)
    (h1 : ist.index = some fi) (h2 : ist.vectorizer = some vz)
    (ha : fi.vectors.length = ist.chunks_data.length)
    (h0 : 0 < ist.chunks_data.length) :
    (EmbeddingIndexer.search_similarS ist q k).2 = Except.ok (
      (faissTop fi (vz q) k).map
        (fun p => { chunk := ist.chunks_data.getD p.2.toNat default
                    similarity_score := p.1 }) ++
      List.replicate (k - min k ist.chunks_data.length)
        { chunk := ist.chunks_data.getD (ist.chunks_data.length - 1) default
          similarity_score := sentinelScore }) := by
  obtain ⟨fo, vzf, emb, idx, cd⟩ := ist
  dsimp only at h1 h2 ha h0 ⊢
  subst h1 h2
  have htop : EmbeddingIndexer.simLoop cd (faissTop fi (vz q) k) =
      Except.ok ((faissTop fi (vz q) k).map
        (fun p => { chunk := cd.getD p.2.toNat default
                    similarity_score := p.1 })) := by
    refine simLoop_all_some cd (fun p => cd.getD p.2.toNat default) _ ?_
    intro p hp
    obtain ⟨hp0, hplt, -⟩ := candPairs_mem (faissTop_subset hp)
    rw [ha] at hplt
    refine ⟨hplt, ?_⟩
    rw [pyGet_nonneg _ _ hp0 hplt]
    have hlt : p.2.toNat < cd.length := by omega
    rw [List.get?_eq_get hlt, Option.some.injEq]
    exact (List.getD_eq_get cd default hlt).symm
  have hpad : EmbeddingIndexer.simLoop cd
      (List.replicate (k - (faissTop fi (vz q) k).length) (sentinelScore, -1)) =
      Except.ok (List.replicate (k - min k cd.length)
        { chunk := cd.getD (cd.length - 1) default
          similarity_score := sentinelScore }) := by
    have heq := simLoop_all_some cd (fun _ => cd.getD (cd.length - 1) default)
      (List.replicate (k - (faissTop fi (vz q) k).length) (sentinelScore, -1)) ?_
    · rw [heq, List.map_replicate, faissTop_length, ha]
    · intro p hp
      rw [List.eq_of_mem_replicate hp]
      constructor
      · show (-1 : Int) < (cd.length : Int)
        omega
      · show pyGet cd (-1) = some (cd.getD (cd.length - 1) default)
        rw [pyGet_neg_one cd h0]
        have hlt2 : cd.length - 1 < cd.length := by omega
        rw [List.get?_eq_get hlt2, Option.some.injEq]
        exact (List.getD_eq_get cd default hlt2).symm
  show EmbeddingIndexer.simLoop cd (faissSearch fi (vz q) k) = _
  rw [show faissSearch fi (vz q) k = faissTop fi (vz q) k ++
      List.replicate (k - (faissTop fi (vz q) k).length) (sentinelScore, -1) from rfl]
  exact simLoop_append cd _ _ _ _ htop hpad

/-! ## Claim C10: sentinel padding duplicates the last chunk -/

/-- C10. When k exceeds the number n of stored vectors and at least one
chunk is stored, the index pads its result rows with id -1 and the sentinel
score; the guard comparing the id with the chunk count accepts -1, Python
negative indexing resolves it to the last chunk, and search_similar returns
k rows, the final k - n of them copies of the last stored chunk carrying
the sentinel score, instead of omitting them. -/
theorem claim_C10_padding_returns_last_chunk
    (ist : EmbeddingIndexer.IndexerState) (fi : FaissIndex) (vz : Str → Vec)
    (q : Str) (k : Nat)
    (h1 : ist.index = some fi) (h2 : ist.vectorizer = some vz)
    (ha : fi.vectors.length = ist.chunks_data.length)
    (h0 : 0 < ist.chunks_data.length) (hk : ist.chunks_data.length < k) :
    ∃ rs, (EmbeddingIndexer.search_similarS ist q k).2 = Except.ok rs ∧
      rs.length = k ∧
      rs.drop ist.chunks_data.length =
        List.replicate (k - ist.chunks_data.length)
          { chunk := ist.chunks_data.getD (ist.chunks_data.length - 1) default
            similarity_score := sentinelScore } := by
  refine ⟨_, search_similar_norm ist fi vz q k h1 h2 ha h0, ?_, ?_⟩
  · rw [List.length_append, List.length_map, faissTop_length, ha,
      List.length_replicate]
    omega
  · have hlen : ((faissTop fi (vz q) k).map
        (fun p => ({ chunk := ist.chunks_data.getD p.2.toNat default
                     similarity_score := p.1 } : EmbeddingIndexer.SimilarChunk))).length
        = ist.chunks_data.length := by
      rw [List.length_map, faissTop_length, ha]
      omega
    rw [List.drop_left' hlen]
    have hmin : min k ist.chunks_data.length = ist.chunks_data.length := by omega
    rw [hmin]

/-- C10, witness: one stored vector and chunk, k = 2: the second returned
row is a copy of the single stored chunk with the sentinel score. -/
theorem claim_C10_witness :
    ∃ rs, (EmbeddingIndexer.search_similarS
      { fitOracle := fun _ => (fun _ => [], [])
        vectorizer := some fun _ => [1]
        embeddings := none
        index := some { vectors := [[1]] }
        chunks_data := [{ chunk_id := "h_0".data, source := "h".data,
                          text := "rest and hydrate".data, token_count := 3,
                          chunk_index := 0 }] } ("q".data) 2).2 = Except.ok rs ∧
      rs.length = 2 ∧
      rs.drop 1 = List.replicate 1
        { chunk := { chunk_id := "h_0".data, source := "h".data,
                     text := "rest and hydrate".data, token_count := 3,
                     chunk_index := 0 }
          similarity_score := sentinelScore } :=
  claim_C10_padding_returns_last_chunk _ _ _ ("q".data) 2 rfl rfl rfl
    (by decide) (by decide)

/-! ## Claim C6: length and order of the nearest-neighbor results -/

/-- C6, counterexample. The claim says the search returns min(k, n)
results; with one stored vector and chunk and k = 2, search_similar
returns two results (the sentinel padding row passes the guard), and
2 is not min(2, 1). -/
theorem claim_C6_counterexample :
    Except.map List.length
      ((EmbeddingIndexer.search_similarS
        { fitOracle := fun _ => (fun _ => [], [])
          vectorizer := some fun _ => [1]
          embeddings := none
          index := some { vectors := [[1]] }
          chunks_data := [{ chunk_id := "h_0".data, source := "h".data,
                            text := "rest and hydrate".data, token_count := 3,
                            chunk_index := 0 }] } ("q".data) 2).2) = Except.ok 2 ∧
    (2 : Nat) ≠ min 2 1 := by
  constructor
  · rfl
  · decide

/-- C6, amended. The valid part of the returned sequence, the modelled
top-k, has length min(k, n) and is ordered by strictly descending score
with ties broken by ascending id; search_similar itself, on a loaded
aligned state, returns a sequence of length k whenever n is positive (not
min(k, n): the padding rows pass the guard, see C10), its score column
being the top-k scores followed by sentinel scores; and when n = 0 and k
is positive the call returns no sequence at all: the padded id -1 passes
the guard and indexing the empty chunk list raises IndexError. Determinism
holds: the search is a function of the state, query and k. -/
theorem claim_C6_topk_length_order
    (ist : EmbeddingIndexer.IndexerState) (fi : FaissIndex) (vz : Str → Vec)
    (q : Str) (k : Nat)
    (h1 : ist.index = some fi) (h2 : ist.vectorizer = some vz)
    (ha : fi.vectors.length = ist.chunks_data.length) :
    (faissTop fi (vz q) k).length = min k ist.chunks_data.length ∧
    List.Pairwise (fun a b : ℚ × Int => b.1 < a.1 ∨ (a.1 = b.1 ∧ a.2 < b.2))
      (faissTop fi (vz q) k) ∧
    (0 < ist.chunks_data.length →
      ∃ rs, (EmbeddingIndexer.search_similarS ist q k).2 = Except.ok rs ∧
        rs.length = k ∧
        rs.map (fun r => r.similarity_score) =
          (faissTop fi (vz q) k).map Prod.fst ++
          List.replicate (k - min k ist.chunks_data.length) sentinelScore) ∧
    (ist.chunks_data.length = 0 → 0 < k →
      (EmbeddingIndexer.search_similarS ist q k).2 =
        Except.error "IndexError: list index out of range") := by
  refine ⟨by rw [faissTop_length, ha], faissTop_pairwise_strict fi (vz q) k, ?_, ?_⟩
  · intro h0
    refine ⟨_, search_similar_norm ist fi vz q k h1 h2 ha h0, ?_, ?_⟩
    · rw [List.length_append, List.length_map, List.length_replicate,
        faissTop_length, ha]
      omega
    · rw [List.map_append, List.map_map, List.map_replicate]
      rfl
  · intro h0 hk
    obtain ⟨fo, vzf, emb, idx, cd⟩ := ist
    dsimp only at h1 h2 ha h0 ⊢
    subst h1 h2
    have hcd : cd = [] := List.length_eq_zero.mp h0
    subst hcd
    show EmbeddingIndexer.simLoop [] (faissSearch fi (vz q) k) = _
    obtain ⟨vecs⟩ := fi
    dsimp only at ha
    have hv : vecs = [] := List.length_eq_zero.mp ha
    subst hv
    have hsearch : faissSearch { vectors := [] } (vz q) k =
        List.replicate k (sentinelScore, -1) := by
      show faissTop { vectors := [] } (vz q) k ++ _ = _
      have htop : faissTop { vectors := ([] : List Vec) } (vz q) k = [] := by
        unfold faissTop
        rw [show List.insertionSort candLE (candPairs { vectors := [] } (vz q)) = []
          from rfl]
        exact List.take_nil
      rw [htop, List.nil_append, List.length_nil, Nat.sub_zero]
    rw [hsearch]
    cases k with
    | zero => exact absurd hk (by omega)
    | succ m =>
      rw [List.replicate_succ, simLoop_cons, if_pos (by decide :
        ((sentinelScore, (-1 : Int)).2 < ((List.length ([] : List ChunkRec)) : Int)))]
      rfl

/-- C6, witness: two stored vectors, k = 3, a query scoring both equally:
the valid top has length min(3, 2) = 2 and is tie-broken by ascending id;
the returned sequence has length 3 with one sentinel-score row; the
IndexError clause holds vacuously here since two chunks are stored. -/
theorem claim_C6_witness :
    (faissTop { vectors := [[1, 0], [0, 1]] } ((fun _ : Str => [1, 1]) ("q".data)) 3).length
        = min 3 2 ∧
    List.Pairwise (fun a b : ℚ × Int => b.1 < a.1 ∨ (a.1 = b.1 ∧ a.2 < b.2))
      (faissTop { vectors := [[1, 0], [0, 1]] } ((fun _ : Str => [1, 1]) ("q".data)) 3) ∧
    (0 < (2 : Nat) →
      ∃ rs, (EmbeddingIndexer.search_similarS
        { fitOracle := fun _ => (fun _ => [], [])
          vectorizer := some fun _ => [1, 1]
          embeddings := none
          index := some { vectors := [[1, 0], [0, 1]] }
          chunks_data := [{ chunk_id := "h_0".data, source := "h".data,
                            text := "first".data, token_count := 1, chunk_index := 0 },
                          { chunk_id := "h_1".data, source := "h".data,
                            text := "second".data, token_count := 1, chunk_index := 1 }] }
        ("q".data) 3).2 = Except.ok rs ∧
        rs.length = 3 ∧
        rs.map (fun r => r.similarity_score) =
          (faissTop { vectors := [[1, 0], [0, 1]] }
              ((fun _ : Str => [1, 1]) ("q".data)) 3).map Prod.fst ++
            List.replicate (3 - min 3 2) sentinelScore) ∧
    ((2 : Nat) = 0 → 0 < 3 →
      (EmbeddingIndexer.search_similarS
        { fitOracle := fun _ => (fun _ => [], [])
          vectorizer := some fun _ => [1, 1]
          embeddings := none
          index := some { vectors := [[1, 0], [0, 1]] }
          chunks_data := [{ chunk_id := "h_0".data, source := "h".data,
                            text := "first".data, token_count := 1, chunk_index := 0 },
                          { chunk_id := "h_1".data, source := "h".data,
                            text := "second".data, token_count := 1, chunk_index := 1 }] }
        ("q".data) 3).2 = Except.error "IndexError: list index out of range") :=
  claim_C6_topk_length_order
    { fitOracle := fun _ => (fun _ => [], [])
      vectorizer := some fun _ => [1, 1]
      embeddings := none
      index := some { vectors := [[1, 0], [0, 1]] }
      chunks_data := [{ chunk_id := "h_0".data, source := "h".data,
                        text := "first".data, token_count := 1, chunk_index := 0 },
                      { chunk_id := "h_1".data, source := "h".data,
                        text := "second".data, token_count := 1, chunk_index := 1 }] }
    { vectors := [[1, 0], [0, 1]] } (fun _ => [1, 1]) ("q".data) 3 rfl rfl rfl

/-! ## Lemmas for the retriever search filter -/

theorem takeWhile_append_replicate_false {α : Type} (p : α → Bool) (x : α)
    (hx : p x = false) :
    ∀ (l : List α) (m : Nat),
      (l ++ List.replicate m x).takeWhile p = l.takeWhile p
  | [], m => by
    cases m with
    | zero => rfl
    | succ n => simp [List.replicate_succ, List.takeWhile_cons, hx]
  | a :: l, m => by
    rw [List.cons_append, List.takeWhile_cons, List.takeWhile_cons]
    by_cases ha : p a = true
    · rw [ha, if_pos rfl, if_pos rfl, takeWhile_append_replicate_false p x hx l m]
    · rw [Bool.not_eq_true] at ha
      rw [ha]
      simp

theorem filter_eq_takeWhile_desc {α : Type} (key : α → ℚ) (X : ℚ) :
    ∀ l : List α, List.Pairwise (fun a b => key b ≤ key a) l →
      l.filter (fun a => decide (X ≤ key a)) =
        l.takeWhile (fun a => decide (X ≤ key a))
  | [], _ => rfl
  | a :: l, h => by
    rw [List.pairwise_cons] at h
    rw [List.filter_cons, List.takeWhile_cons]
    by_cases ha : X ≤ key a
    · rw [decide_eq_true ha]
      rw [if_pos rfl, if_pos rfl, filter_eq_takeWhile_desc key X l h.2]
    · rw [decide_eq_false ha]
      simp only [Bool.false_eq_true, if_false]
      refine List.filter_eq_nil_iff.mpr ?_
      intro b hb hyes
      exact ha (le_trans (of_decide_eq_true hyes) (h.1 b hb))

theorem takeWhile_takeWhile_of_imp {α : Type} (p q : α → Bool)
    (hpq : ∀ a, p a = true → q a = true) :
    ∀ l : List α, (l.takeWhile q).takeWhile p = l.takeWhile p
  | [] => rfl
  | a :: l => by
    by_cases hq : q a = true
    · rw [List.takeWhile_cons, List.takeWhile_cons, hq, if_pos rfl,
        List.takeWhile_cons]
      by_cases hp : p a = true
      · rw [hp, if_pos rfl, if_pos rfl, takeWhile_takeWhile_of_imp p q hpq l]
      · rw [Bool.not_eq_true] at hp
        rw [hp]
        simp
    · have hp : p a = false := by
        cases hpa : p a
        · rfl
        · exact absurd (hpq a hpa) hq
      have hq' : q a = false := Bool.not_eq_true _ |>.mp hq
      rw [List.takeWhile_cons, List.takeWhile_cons, hp, hq']
      simp

theorem pairwise_enumFrom {α : Type} (R : α → α → Prop) :
    ∀ (l : List α) (n : Nat), List.Pairwise R l →
      List.Pairwise (fun a b : Nat × α => R a.2 b.2) (List.enumFrom n l)
  | [], _, _ => List.Pairwise.nil
  | a :: l, n, h => by
    rw [List.pairwise_cons] at h
    rw [List.enumFrom_cons, List.pairwise_cons]
    refine ⟨?_, pairwise_enumFrom R l (n + 1) h.2⟩
    rintro ⟨i, b⟩ hib
    obtain ⟨-, -, heq⟩ := List.mem_enumFrom hib
    exact heq ▸ h.1 _ (List.getElem_mem _)

theorem takeWhile_enumFrom {α : Type} (p' : Nat × α → Bool) (q : α → Bool)
    (hpq : ∀ i a, p' (i, a) = q a) :
    ∀ (l : List α) (n : Nat),
      (List.enumFrom n l).takeWhile p' = List.enumFrom n (l.takeWhile q)
  | [], _ => rfl
  | a :: l, n => by
    rw [List.enumFrom_cons, List.takeWhile_cons, List.takeWhile_cons, hpq n a]
    by_cases ha : q a = true
    · rw [ha, if_pos rfl, if_pos rfl, List.enumFrom_cons,
        takeWhile_enumFrom p' q hpq l (n + 1)]
    · have ha' : q a = false := Bool.not_eq_true _ |>.mp ha
      rw [ha']
      simp

theorem reRank_fixed_aux :
    ∀ (rs : List MedicalRetriever.RetrievedChunk) (n : Nat),
      (∀ i r, (i, r) ∈ List.enumFrom n rs → r.rank = i + 1) →
      ((List.enumFrom n rs).map fun ir =>
        { ir.2 with rank := ir.1 + 1 }) = rs
  | [], _, _ => rfl
  | r :: rs, n, h => by
    rw [List.enumFrom_cons, List.map_cons]
    have h1 : r.rank = n + 1 := h n r (by rw [List.enumFrom_cons]; exact List.mem_cons_self _ _)
    congr 1
    · obtain ⟨c, s, k⟩ := r
      simp only at h1
      rw [h1]
    · exact reRank_fixed_aux rs (n + 1) fun i x hx =>
        h i x (by rw [List.enumFrom_cons]; exact List.mem_cons_of_mem _ hx)

/-- reRank is the identity on a list whose ranks already count from one, as
the retriever filter produces them. -/
theorem reRank_map_enum (t : List (ℚ × Int)) (C : ℚ × Int → ChunkRec)
    (S : ℚ × Int → ℚ) :
    MedicalRetriever.reRank ((t.enum).map fun ip =>
      { chunk := C ip.2, similarity_score := S ip.2, rank := ip.1 + 1 }) =
    (t.enum).map fun ip =>
      { chunk := C ip.2, similarity_score := S ip.2, rank := ip.1 + 1 } := by
  unfold MedicalRetriever.reRank
  show ((List.enumFrom 0 _).map _) = _
  refine reRank_fixed_aux _ 0 ?_
  intro i r hir
  obtain ⟨-, hlt, heq⟩ := List.mem_enumFrom hir
  rw [List.length_map] at hlt
  have h1 : i - 0 < t.enum.length := by omega
  rw [heq, List.getElem_map]
  show (_ : MedicalRetriever.RetrievedChunk).rank = _
  simp only [List.enum, List.getElem_enumFrom]
  omega

/-- The normal form of the retriever result loop on a score-descending row
list whose rows passing the threshold all carry valid ids: exactly the
leading rows at or above the threshold survive, each mapped to a copy of
its chunk with rank equal to its position plus one. -/
theorem retrFilter_norm (chunks : List ChunkRec) (ms : ℚ) (ps : List (ℚ × Int))
    (hdesc : List.Pairwise (fun a b : ℚ × Int => b.1 ≤ a.1) ps)
    (hvalid : ∀ p ∈ ps, ms ≤ p.1 → 0 ≤ p.2 ∧ p.2 < (chunks.length : Int)) :
    MedicalRetriever.retrFilter chunks ms ps = Except.ok
      (((ps.takeWhile fun p => decide (ms ≤ p.1)).enum).map fun ip =>
        { chunk := chunks.getD ip.2.2.toNat default
          similarity_score := ip.2.1
          rank := ip.1 + 1 }) := by
  have hsplit := List.takeWhile_append_dropWhile
    (p := fun p : ℚ × Int => decide (ms ≤ p.1)) (l := ps)
  have hdfail : ∀ p ∈ ps.dropWhile (fun p => decide (ms ≤ p.1)), ¬ ms ≤ p.1 := by
    intro p hp
    rcases hdrop : ps.dropWhile (fun p : ℚ × Int => decide (ms ≤ p.1)) with _ | ⟨p0, d'⟩
    · rw [hdrop] at hp
      exact absurd hp (List.not_mem_nil p)
    · have hlen : 0 < (ps.dropWhile (fun p : ℚ × Int => decide (ms ≤ p.1))).length := by
        rw [hdrop]; exact Nat.succ_pos _
      have h0 := List.dropWhile_get_zero_not (fun p : ℚ × Int => decide (ms ≤ p.1)) ps hlen
      have h0' : ¬ ms ≤ p0.1 := by
        intro hc
        apply h0
        have : (ps.dropWhile (fun p : ℚ × Int => decide (ms ≤ p.1))).get ⟨0, hlen⟩ = p0 := by
          simp [hdrop]
        rw [this]
        exact decide_eq_true hc
      have hpd : List.Pairwise (fun a b : ℚ × Int => b.1 ≤ a.1)
          (ps.dropWhile fun p => decide (ms ≤ p.1)) :=
        hdesc.sublist (List.dropWhile_sublist _)
      rw [hdrop] at hp hpd
      rw [List.pairwise_cons] at hpd
      rcases List.mem_cons.mp hp with rfl | hp'
      · exact h0'
      · intro hc
        exact h0' (le_trans hc (hpd.1 p hp'))
  have hmem_t : ∀ p ∈ ps.takeWhile (fun p : ℚ × Int => decide (ms ≤ p.1)), p ∈ ps :=
    fun p hp => ((List.takeWhile_prefix _).sublist).subset hp
  conv_lhs => rw [MedicalRetriever.retrFilter, ← hsplit]
  rw [show ∀ l : List (ℚ × Int), l.enum = List.enumFrom 0 l from fun _ => rfl,
    List.enumFrom_append]
  have h1 : MedicalRetriever.retrLoop chunks ms
      (List.enumFrom 0 (ps.takeWhile fun p : ℚ × Int => decide (ms ≤ p.1))) =
      Except.ok
        ((List.enumFrom 0 (ps.takeWhile fun p : ℚ × Int => decide (ms ≤ p.1))).map
          (fun ip => { chunk := chunks.getD ip.2.2.toNat default
                       similarity_score := ip.2.1
                       rank := ip.1 + 1 })) := by
    refine retrLoop_all_some chunks ms (fun ip => chunks.getD ip.2.2.toNat default)
      _ ?_
    rintro ⟨i, p⟩ hip
    obtain ⟨-, hlt, heq⟩ := List.mem_enumFrom hip
    have hpt : p ∈ ps.takeWhile (fun p : ℚ × Int => decide (ms ≤ p.1)) := by
      rw [heq]; exact List.getElem_mem _
    have hdec :=
      List.mem_takeWhile_imp (p := fun p : ℚ × Int => decide (ms ≤ p.1)) hpt
    have hpms : ms ≤ p.1 := of_decide_eq_true hdec
    obtain ⟨hp0, hpbig⟩ := hvalid p (hmem_t p hpt) hpms
    refine ⟨⟨hpms, hpbig⟩, ?_⟩
    rw [pyGet_nonneg _ _ hp0 hpbig]
    have hlt2 : p.2.toNat < chunks.length := by omega
    rw [List.get?_eq_get hlt2, Option.some.injEq]
    exact (List.getD_eq_get chunks default hlt2).symm
  have h2 : MedicalRetriever.retrLoop chunks ms
      (List.enumFrom
        (0 + (ps.takeWhile fun p : ℚ × Int => decide (ms ≤ p.1)).length)
        (ps.dropWhile fun p : ℚ × Int => decide (ms ≤ p.1))) = Except.ok [] := by
    refine retrLoop_all_skip chunks ms _ ?_
    rintro ⟨i, p⟩ hip
    obtain ⟨-, -, heq⟩ := List.mem_enumFrom hip
    have hpd : p ∈ ps.dropWhile (fun p : ℚ × Int => decide (ms ≤ p.1)) := by
      rw [heq]; exact List.getElem_mem _
    rintro ⟨hms', -⟩
    exact hdfail p hpd hms'
  rw [retrLoop_append chunks ms _ _ _ _ h1 h2, List.append_nil]
  rfl

theorem faissTop_desc (fi : FaissIndex) (qv : Vec) (k : Nat) :
    List.Pairwise (fun a b : ℚ × Int => b.1 ≤ a.1) (faissTop fi qv k) := by
  refine (faissTop_sorted fi qv k).imp ?_
  rintro a b (h | ⟨h, -⟩)
  · exact le_of_lt h
  · exact le_of_eq h.symm

theorem map_enum_comp {α β : Type} (g : α → β) :
    ∀ (l : List α) (n : Nat),
      ((List.enumFrom n l).map fun ip => g ip.2) = l.map g
  | [], _ => rfl
  | a :: l, n => by
    rw [List.enumFrom_cons, List.map_cons, List.map_cons, map_enum_comp g l (n + 1)]

/-- The scores of every valid top row lie above the sentinel whenever the
query scores every stored vector above it (true of any real query against
normalized vectors, whose scores lie in the unit interval). -/
theorem faissTop_scores_above
    (fi : FaissIndex) (qv : Vec) (k : Nat)
    (hb : ∀ v ∈ fi.vectors, sentinelScore < dotQ qv v) :
    ∀ p ∈ faissTop fi qv k, sentinelScore < p.1 := by
  intro p hp
  obtain ⟨hp0, hplt, hpeq⟩ := candPairs_mem (faissTop_subset hp)
  rw [hpeq]
  apply hb
  have hlt : p.2.toNat < fi.vectors.length := by omega
  rw [List.getD_eq_getElem _ _ hlt]
  exact List.getElem_mem _

/-- The normal form of MedicalRetriever.search on a loaded, aligned state
for any threshold above the sentinel: the result is the leading top-k rows
at or above the threshold, each a copy of its chunk with its score, ranks
counting from one with no gaps. -/
theorem search_norm
    (st : MedicalRetriever.RetrieverState) (fi : FaissIndex)
    (q : Str) (k : Nat) (m : ℚ)
    (hl : st.is_loaded = true) (hidx : st.index = some fi)
    (ha : fi.vectors.length = st.chunks_data.length)
    (hb : ∀ v ∈ fi.vectors, sentinelScore < dotQ (st.encode q) v)
    (hm : sentinelScore < m) :
    (MedicalRetriever.searchS st q k m).2 = Except.ok
      ((((faissTop fi (st.encode q) k).takeWhile fun p => decide (m ≤ p.1)).enum).map
        fun ip =>
          { chunk := st.chunks_data.getD ip.2.2.toNat default
            similarity_score := ip.2.1
            rank := ip.1 + 1 }) := by
  have hstep : (MedicalRetriever.searchS st q k m).2 =
      MedicalRetriever.retrFilter st.chunks_data m
        (faissSearch fi (st.encode q) k) := by
    unfold MedicalRetriever.searchS
    rw [hl, hidx]
    rfl
  rw [hstep]
  have hscore := faissTop_scores_above fi (st.encode q) k hb
  have hdesc : List.Pairwise (fun a b : ℚ × Int => b.1 ≤ a.1)
      (faissSearch fi (st.encode q) k) := by
    unfold faissSearch
    rw [List.pairwise_append]
    refine ⟨faissTop_desc fi (st.encode q) k, ?_, ?_⟩
    · rw [List.pairwise_replicate]
      exact Or.inr (le_refl _)
    · intro a haa b hbb
      rw [List.eq_of_mem_replicate hbb]
      exact le_of_lt (hscore a haa)
  have hvalid : ∀ p ∈ faissSearch fi (st.encode q) k, m ≤ p.1 →
      0 ≤ p.2 ∧ p.2 < (st.chunks_data.length : Int) := by
    intro p hp hmp
    rcases List.mem_append.mp hp with hp | hp
    · obtain ⟨hp0, hplt, -⟩ := candPairs_mem (faissTop_subset hp)
      rw [ha] at hplt
      exact ⟨hp0, hplt⟩
    · rw [List.eq_of_mem_replicate hp] at hmp
      exact absurd hmp (not_le.mpr hm)
  rw [retrFilter_norm _ _ _ hdesc hvalid]
  have hpadfail : (fun p : ℚ × Int => decide (m ≤ p.1)) (sentinelScore, -1) = false :=
    decide_eq_false (not_le.mpr hm)
  unfold faissSearch
  rw [takeWhile_append_replicate_false (fun p : ℚ × Int => decide (m ≤ p.1))
    (sentinelScore, -1) hpadfail (faissTop fi (st.encode q) k)
    (k - (faissTop fi (st.encode q) k).length)]

/-- Filtering a search result list by a score threshold equals re-running
the takeWhile on the underlying rows, when those rows descend by score. -/
theorem filter_score_map_enum (chunks : List ChunkRec) (X : ℚ)
    (t0 : List (ℚ × Int))
    (hdesc : List.Pairwise (fun a b : ℚ × Int => b.1 ≤ a.1) t0) :
    ((t0.enum).map (fun ip =>
        ({ chunk := chunks.getD ip.2.2.toNat default
           similarity_score := ip.2.1
           rank := ip.1 + 1 } : MedicalRetriever.RetrievedChunk))).filter
      (fun r => decide (X ≤ r.similarity_score)) =
    ((t0.takeWhile fun p => decide (X ≤ p.1)).enum).map (fun ip =>
        ({ chunk := chunks.getD ip.2.2.toNat default
           similarity_score := ip.2.1
           rank := ip.1 + 1 } : MedicalRetriever.RetrievedChunk)) := by
  rw [List.filter_map]
  have hcomp : ((fun r : MedicalRetriever.RetrievedChunk =>
      decide (X ≤ r.similarity_score)) ∘
      (fun ip : Nat × (ℚ × Int) =>
        ({ chunk := chunks.getD ip.2.2.toNat default
           similarity_score := ip.2.1
           rank := ip.1 + 1 } : MedicalRetriever.RetrievedChunk))) =
      fun ip : Nat × (ℚ × Int) => decide (X ≤ ip.2.1) := rfl
  rw [hcomp]
  simp only [List.enum]
  rw [filter_eq_takeWhile_desc (fun ip : Nat × (ℚ × Int) => ip.2.1) X _
    (pairwise_enumFrom _ t0 0 hdesc)]
  refine congrArg _ ?_
  exact takeWhile_enumFrom _ (fun p : ℚ × Int => decide (X ≤ p.1))
    (fun i a => rfl) t0 0

theorem take_enumFrom {α : Type} :
    ∀ (l : List α) (n m : Nat),
      (List.enumFrom n l).take m = List.enumFrom n (l.take m)
  | [], _, _ => by simp
  | _ :: _, _, 0 => rfl
  | a :: l, n, m + 1 => by
    rw [List.enumFrom_cons, List.take_succ_cons, List.take_succ_cons,
      List.enumFrom_cons, take_enumFrom l (n + 1) m]

/-! ## Claim C1: threshold filtering and re-ranking in Retriever.search -/

/-- C1. On a loaded retriever whose index is aligned with its chunk list
(the central alignment invariant), with every stored vector scoring above
the padding sentinel against the query (true of any query, since scores of
normalized vectors lie in the unit interval) and the threshold above the
sentinel as well: search succeeds, returning exactly those top-k rows
whose score is at or above min_score as chunk copies with their scores;
the ranks are consecutive from one with no gaps; when no row meets the
threshold the call returns the empty list as a successful outcome, not an
error; and for any threshold X at least zero, the result list at X is the
prefix of the min_score-zero list with score at least X, re-ranked from
one. -/
theorem claim_C1_threshold_filter_rerank
    (st : MedicalRetriever.RetrieverState) (fi : FaissIndex)
    (q : Str) (k : Nat) (ms X : ℚ)
    (hl : st.is_loaded = true) (hidx : st.index = some fi)
    (ha : fi.vectors.length = st.chunks_data.length)
    (hb : ∀ v ∈ fi.vectors, sentinelScore < dotQ (st.encode q) v)
    (hms : sentinelScore < ms) (hX : 0 ≤ X) :
    (∃ rs, (MedicalRetriever.searchS st q k ms).2 = Except.ok rs ∧
      rs.map (fun r => (r.chunk, r.similarity_score)) =
        ((faissTop fi (st.encode q) k).filter fun p => decide (ms ≤ p.1)).map
          (fun p => (st.chunks_data.getD p.2.toNat default, p.1)) ∧
      rs.map (fun r => r.rank) = List.range' 1 rs.length ∧
      ((∀ p ∈ faissTop fi (st.encode q) k, p.1 < ms) → rs = [])) ∧
    (∃ rs0 rsX, (MedicalRetriever.searchS st q k 0).2 = Except.ok rs0 ∧
      (MedicalRetriever.searchS st q k X).2 = Except.ok rsX ∧
      (rs0.map fun r => (r.chunk, r.similarity_score)).take rsX.length =
        rsX.map (fun r => (r.chunk, r.similarity_score)) ∧
      rsX = MedicalRetriever.reRank
        (rs0.filter fun r => decide (X ≤ r.similarity_score))) := by
  have hsent0 : sentinelScore < 0 := by norm_num [sentinelScore]
  have hsentX : sentinelScore < X := lt_of_lt_of_le hsent0 hX
  constructor
  · refine ⟨_, search_norm st fi q k ms hl hidx ha hb hms, ?_, ?_, ?_⟩
    · rw [List.map_map]
      rw [filter_eq_takeWhile_desc Prod.fst ms _
        (faissTop_desc fi (st.encode q) k)]
      exact map_enum_comp
        (fun p : ℚ × Int => (st.chunks_data.getD p.2.toNat default, p.1)) _ 0
    · rw [List.map_map, List.length_map, List.enum_length]
      exact enumFrom_map_rank 0 _
    · intro hall
      have hnil : (faissTop fi (st.encode q) k).takeWhile
          (fun p => decide (ms ≤ p.1)) = [] := by
        cases htop : faissTop fi (st.encode q) k with
        | nil => rfl
        | cons a l =>
          rw [List.takeWhile_cons,
            decide_eq_false (not_le.mpr (hall a (htop ▸ List.mem_cons_self a l)))]
          simp
      rw [hnil]
      rfl
  · refine ⟨_, _, search_norm st fi q k 0 hl hidx ha hb hsent0,
      search_norm st fi q k X hl hidx ha hb hsentX, ?_, ?_⟩
    all_goals
      have himp : ∀ a : ℚ × Int, decide (X ≤ a.1) = true →
          decide ((0 : ℚ) ≤ a.1) = true :=
        fun a hXa => decide_eq_true (le_trans hX (of_decide_eq_true hXa))
    all_goals
      have htX : (faissTop fi (st.encode q) k).takeWhile
          (fun p => decide (X ≤ p.1)) =
          ((faissTop fi (st.encode q) k).takeWhile
            fun p => decide ((0 : ℚ) ≤ p.1)).takeWhile
            (fun p => decide (X ≤ p.1)) :=
        (takeWhile_takeWhile_of_imp _ _ himp _).symm
    · rw [List.map_map, List.map_map, List.length_map, List.enum_length]
      rw [← List.map_take]
      refine congrArg _ ?_
      show (List.enumFrom 0 _).take _ = _
      rw [take_enumFrom]
      refine congrArg _ ?_
      have hpq : List.takeWhile (fun p : ℚ × Int => decide (X ≤ p.1))
          ((faissTop fi (st.encode q) k).takeWhile
            fun p => decide ((0 : ℚ) ≤ p.1)) =
          ((faissTop fi (st.encode q) k).takeWhile
            fun p => decide ((0 : ℚ) ≤ p.1)).take
            (List.takeWhile (fun p : ℚ × Int => decide (X ≤ p.1))
              ((faissTop fi (st.encode q) k).takeWhile
                fun p => decide ((0 : ℚ) ≤ p.1))).length :=
        List.prefix_iff_eq_take.mp (List.takeWhile_prefix _)
      rw [← htX] at hpq
      exact hpq.symm
    · have ht0desc : List.Pairwise (fun a b : ℚ × Int => b.1 ≤ a.1)
          ((faissTop fi (st.encode q) k).takeWhile
            fun p => decide ((0 : ℚ) ≤ p.1)) :=
        (faissTop_desc fi (st.encode q) k).sublist
          ((List.takeWhile_prefix _).sublist)
      rw [filter_score_map_enum st.chunks_data X _ ht0desc]
      rw [← htX]
      exact (reRank_map_enum _ (fun p => st.chunks_data.getD p.2.toNat default)
        Prod.fst).symm

/-- C1, witness: a loaded two-chunk retriever, k = 2, thresholds one half
and zero; the hypotheses hold by computation. -/
theorem claim_C1_witness :
    (∃ rs, (MedicalRetriever.searchS
      { encode := fun _ => [1, 0]
        index := some { vectors := [[1, 0], [0, 1]] }
        chunks_data := [{ chunk_id := "d_0".data, source := "d".data,
                          text := "alpha".data, token_count := 1, chunk_index := 0 },
                        { chunk_id := "d_1".data, source := "d".data,
                          text := "beta".data, token_count := 1, chunk_index := 1 }]
        dimension := none
        is_loaded := true } ("water".data) 2 (1 / 2)).2 = Except.ok rs ∧
      rs.map (fun r => (r.chunk, r.similarity_score)) =
        ((faissTop { vectors := [[1, 0], [0, 1]] } [1, 0] 2).filter
          fun p => decide ((1 / 2 : ℚ) ≤ p.1)).map
          (fun p => ([{ chunk_id := "d_0".data, source := "d".data,
                        text := "alpha".data, token_count := 1, chunk_index := 0 },
                      { chunk_id := "d_1".data, source := "d".data,
                        text := "beta".data, token_count := 1, chunk_index := 1 }].getD
              p.2.toNat default, p.1)) ∧
      rs.map (fun r => r.rank) = List.range' 1 rs.length ∧
      ((∀ p ∈ faissTop { vectors := [[1, 0], [0, 1]] } [1, 0] 2,
          p.1 < (1 / 2 : ℚ)) → rs = [])) ∧
    (∃ rs0 rsX, (MedicalRetriever.searchS
      { encode := fun _ => [1, 0]
        index := some { vectors := [[1, 0], [0, 1]] }
        chunks_data := [{ chunk_id := "d_0".data, source := "d".data,
                          text := "alpha".data, token_count := 1, chunk_index := 0 },
                        { chunk_id := "d_1".data, source := "d".data,
                          text := "beta".data, token_count := 1, chunk_index := 1 }]
        dimension := none
        is_loaded := true } ("water".data) 2 0).2 = Except.ok rs0 ∧
      (MedicalRetriever.searchS
      { encode := fun _ => [1, 0]
        index := some { vectors := [[1, 0], [0, 1]] }
        chunks_data := [{ chunk_id := "d_0".data, source := "d".data,
                          text := "alpha".data, token_count := 1, chunk_index := 0 },
                        { chunk_id := "d_1".data, source := "d".data,
                          text := "beta".data, token_count := 1, chunk_index := 1 }]
        dimension := none
        is_loaded := true } ("water".data) 2 (1 / 2)).2 = Except.ok rsX ∧
      (rs0.map fun r => (r.chunk, r.similarity_score)).take rsX.length =
        rsX.map (fun r => (r.chunk, r.similarity_score)) ∧
      rsX = MedicalRetriever.reRank
        (rs0.filter fun r => decide ((1 / 2 : ℚ) ≤ r.similarity_score))) :=
  claim_C1_threshold_filter_rerank
    { encode := fun _ => [1, 0]
      index := some { vectors := [[1, 0], [0, 1]] }
      chunks_data := [{ chunk_id := "d_0".data, source := "d".data,
                        text := "alpha".data, token_count := 1, chunk_index := 0 },
                      { chunk_id := "d_1".data, source := "d".data,
                        text := "beta".data, token_count := 1, chunk_index := 1 }]
      dimension := none
      is_loaded := true }
    { vectors := [[1, 0], [0, 1]] } ("water".data) 2 (1 / 2) (1 / 2)
    rfl rfl rfl
    (by intro v hv
        fin_cases hv <;> norm_num [dotQ, sentinelScore])
    (by norm_num [sentinelScore]) (by norm_num)

/-! ## Claim C7: clean_text and its dead line-anchored substitutions -/

/-- C7. clean_text first collapses every whitespace run, newlines included,
to a single space; the later MULTILINE patterns for digit-only lines and
all-caps header lines, and the blank-line collapse, act on a string that no
longer has any line structure and so never match an interior line. On a
document with an all-caps header, a digit-only line and a blank-line gap:
the header and the bare page number survive, merged into one line with the
body, and no newline remains; only the Page-number phrase and URL
substitutions behave as documented. This contradicts the code's own
comments (remove page numbers and headers, clean up multiple newlines). -/
theorem claim_C7_clean_text_eval :
    DocumentProcessor.clean_text
      ("MEDICAL FIRST AID BASICS\nsome body text here.\n\n\nnext paragraph.".data) =
      "MEDICAL FIRST AID BASICS some body text here. next paragraph.".data ∧
    containsSub ("MEDICAL FIRST AID BASICS".data)
      (DocumentProcessor.clean_text
        ("MEDICAL FIRST AID BASICS\nsome body text here.\n\n\nnext paragraph.".data))
      = true ∧
    (DocumentProcessor.clean_text
      ("MEDICAL FIRST AID BASICS\nsome body text here.\n\n\nnext paragraph.".data)).contains
      '\n' = false ∧
    DocumentProcessor.clean_text ("42\ntext body here.\n\n\nmore text.".data) =
      "42 text body here. more text.".data ∧
    DocumentProcessor.clean_text ("a Page 3 b http://x.y end".data) =
      "a  b  end".data := by
  refine ⟨by decide, by decide, by decide, by decide, by decide⟩

/-! ## Lemmas about pySplit, pyStrip and joinWords -/

theorem splitAux_nil (acc : Str) :
    splitAux [] acc = if acc = [] then [] else [acc.reverse] := by
  cases acc <;> simp [splitAux]

theorem splitAux_cons (c : Char) (cs acc : Str) :
    splitAux (c :: cs) acc =
      if isWS c then
        (if acc = [] then splitAux cs [] else acc.reverse :: splitAux cs [])
      else splitAux cs (c :: acc) := rfl

theorem splitAux_space_append (b : Str) :
    ∀ (a acc : Str), splitAux (a ++ ' ' :: b) acc = splitAux a acc ++ splitAux b []
  | [], acc => by
    cases acc <;> simp [splitAux_cons, splitAux_nil, isWS]
  | c :: a, acc => by
    rw [List.cons_append, splitAux_cons, splitAux_cons]
    by_cases hc : isWS c = true
    · rw [hc, if_pos rfl, if_pos rfl]
      cases acc with
      | nil =>
        rw [if_pos rfl, if_pos rfl, splitAux_space_append b a []]
      | cons x xs =>
        rw [if_neg (by simp), if_neg (by simp), splitAux_space_append b a [],
          List.cons_append]
    · have hc' : isWS c = false := Bool.not_eq_true _ |>.mp hc
      rw [hc']
      simp only [Bool.false_eq_true, if_false]
      exact splitAux_space_append b a (c :: acc)

theorem splitAux_nonws :
    ∀ (w : Str), w ≠ [] → (∀ c ∈ w, isWS c = false) →
      ∀ acc, splitAux w acc = [acc.reverse ++ w]
  | [], hne, _, _ => absurd rfl hne
  | [c], _, h, acc => by
    have hc := h c (by simp)
    simp [splitAux_cons, hc, splitAux_nil]
  | c :: d :: w, _, h, acc => by
    rw [splitAux_cons, h c (by simp)]
    simp only [Bool.false_eq_true, if_false]
    rw [splitAux_nonws (d :: w) (by simp) (fun x hx => h x (by simp [hx])) (c :: acc)]
    simp

theorem splitAux_words :
    ∀ (s acc : Str), (∀ c ∈ acc, isWS c = false) →
      ∀ w ∈ splitAux s acc, w ≠ [] ∧ ∀ c ∈ w, isWS c = false
  | [], acc, hacc, w, hw => by
    rw [splitAux_nil] at hw
    split at hw
    · exact absurd hw (List.not_mem_nil w)
    · rw [List.mem_singleton] at hw
      subst hw
      refine ⟨by simpa using ‹¬ acc = []›, ?_⟩
      intro c hc
      exact hacc c (List.mem_reverse.mp hc)
  | c :: s, acc, hacc, w, hw => by
    rw [splitAux_cons] at hw
    split at hw
    · split at hw
      · exact splitAux_words s [] (by simp) w hw
      · rcases List.mem_cons.mp hw with rfl | hw'
        · refine ⟨by simpa using ‹¬ acc = []›, ?_⟩
          intro x hx
          exact hacc x (List.mem_reverse.mp hx)
        · exact splitAux_words s [] (by simp) w hw'
    · refine splitAux_words s (c :: acc) ?_ w hw
      intro x hx
      rcases List.mem_cons.mp hx with rfl | hx'
      · exact Bool.not_eq_true _ |>.mp (by assumption)
      · exact hacc x hx'

theorem splitAux_allws :
    ∀ (t : Str), (∀ c ∈ t, isWS c = true) →
      ∀ acc, splitAux t acc = if acc = [] then [] else [acc.reverse]
  | [], _, acc => splitAux_nil acc
  | c :: t, h, acc => by
    rw [splitAux_cons, h c (by simp)]
    rw [if_pos rfl]
    have ht := splitAux_allws t (fun x hx => h x (by simp [hx])) []
    rw [if_pos rfl] at ht
    cases acc with
    | nil => rw [if_pos rfl, if_pos rfl, ht]
    | cons x xs => rw [if_neg (by simp), if_neg (by simp), ht]

theorem splitAux_append_allws (t : Str) (ht : ∀ c ∈ t, isWS c = true) :
    ∀ (s acc : Str), splitAux (s ++ t) acc = splitAux s acc
  | [], acc => by
    rw [List.nil_append, splitAux_allws t ht acc, splitAux_nil]
  | c :: s, acc => by
    rw [List.cons_append, splitAux_cons, splitAux_cons]
    by_cases hc : isWS c = true
    · rw [hc]
      cases acc with
      | nil =>
        rw [if_pos rfl, if_pos rfl, if_pos rfl, if_pos rfl,
          splitAux_append_allws t ht s []]
      | cons x xs =>
        rw [if_pos rfl, if_pos rfl, if_neg (by simp), if_neg (by simp),
          splitAux_append_allws t ht s []]
    · have hc' : isWS c = false := Bool.not_eq_true _ |>.mp hc
      rw [hc']
      simp only [Bool.false_eq_true, if_false]
      exact splitAux_append_allws t ht s (c :: acc)

theorem splitAux_dropWhile :
    ∀ s : Str, splitAux (s.dropWhile isWS) [] = splitAux s []
  | [] => rfl
  | c :: s => by
    rw [List.dropWhile_cons, splitAux_cons]
    by_cases hc : isWS c = true
    · rw [if_pos hc, hc, if_pos rfl, if_pos rfl, splitAux_dropWhile s]
    · have hc' : isWS c = false := Bool.not_eq_true _ |>.mp hc
      rw [if_neg (by simp [hc']), hc']
      simp [splitAux_cons, hc']

theorem head?_dropWhile_false {α : Type} (p : α → Bool) (l : List α)
    (c : α) (hc : (l.dropWhile p).head? = some c) : p c = false := by
  have h := List.head?_dropWhile_not p l
  rw [hc] at h
  exact h

theorem clean_nil : Clean [] :=
  ⟨fun _ h => by simp at h, fun _ h => by simp at h⟩

theorem clean_word (w : Str) (hw : ∀ c ∈ w, isWS c = false) : Clean w := by
  refine ⟨fun c hc => hw c (List.mem_of_mem_head? hc), fun c hc => ?_⟩
  have h2 : w.reverse.head? = some c := (List.head?_reverse w).trans hc
  exact hw c (List.mem_reverse.mp (List.mem_of_mem_head? h2))

theorem clean_pyStrip (s : Str) : Clean (pyStrip s) := by
  constructor
  · intro c hc
    rw [pyStrip, List.head?_reverse] at hc
    obtain ⟨t, ht⟩ := List.dropWhile_suffix (l := (s.dropWhile isWS).reverse) isWS
    have hne : (s.dropWhile isWS).reverse.dropWhile isWS ≠ [] := by
      intro h0
      rw [h0] at hc
      simp at hc
    have h1 : ((s.dropWhile isWS).reverse).getLast? = some c := by
      rw [← ht, List.getLast?_append]
      obtain ⟨d, hd⟩ := Option.isSome_iff_exists.mp
        (Option.isSome_iff_ne_none.mpr (fun h0 => hne (List.getLast?_eq_none_iff.mp h0)))
      rw [hd] at hc ⊢
      exact hc
    rw [List.getLast?_reverse] at h1
    exact head?_dropWhile_false isWS s c h1
  · intro c hc
    rw [pyStrip, List.getLast?_reverse] at hc
    exact head?_dropWhile_false isWS _ c hc

theorem dropWhile_isWS_eq_self (s : Str)
    (h : ∀ c, s.head? = some c → isWS c = false) : s.dropWhile isWS = s := by
  cases s with
  | nil => rfl
  | cons c t => rw [List.dropWhile_cons, if_neg (by simp [h c rfl])]

theorem pyStrip_of_clean (s : Str) (h : Clean s) : pyStrip s = s := by
  rw [pyStrip, dropWhile_isWS_eq_self s h.1, dropWhile_isWS_eq_self s.reverse
    (fun c hc => h.2 c ((List.head?_reverse s).symm.trans hc)), List.reverse_reverse]

theorem clean_append_space (a b : Str) (ha : Clean a) (hane : a ≠ [])
    (hb : Clean b) (hbne : b ≠ []) : Clean (a ++ ' ' :: b) := by
  obtain ⟨x, t, rfl⟩ : ∃ x t, b = x :: t := by
    cases b with
    | nil => exact absurd rfl hbne
    | cons x t => exact ⟨x, t, rfl⟩
  constructor
  · intro c hc
    rw [List.head?_append_of_ne_nil a hane] at hc
    exact ha.1 c hc
  · intro c hc
    rw [List.getLast?_append, List.getLast?_cons_cons] at hc
    obtain ⟨d, hd⟩ := Option.isSome_iff_exists.mp
      (Option.isSome_iff_ne_none.mpr
        (fun h0 => List.cons_ne_nil x t (List.getLast?_eq_none_iff.mp h0)))
    rw [hd] at hc
    have hdc : d = c := Option.some_inj.mp hc
    exact hdc ▸ hb.2 d hd

theorem pySplit_words (s : Str) :
    ∀ w ∈ pySplit s, w ≠ [] ∧ ∀ c ∈ w, isWS c = false :=
  splitAux_words s [] (by simp)

theorem pySplit_strip (s : Str) : pySplit (pyStrip s) = pySplit s := by
  have key : s.dropWhile isWS =
      pyStrip s ++ ((s.dropWhile isWS).reverse.takeWhile isWS).reverse := by
    conv_lhs =>
      rw [← List.reverse_reverse (s.dropWhile isWS),
        ← List.takeWhile_append_dropWhile (p := isWS) (l := (s.dropWhile isWS).reverse)]
    rw [List.reverse_append, pyStrip]
  have hws : ∀ c ∈ ((s.dropWhile isWS).reverse.takeWhile isWS).reverse,
      isWS c = true :=
    fun c hc => List.mem_takeWhile_imp (List.mem_reverse.mp hc)
  calc pySplit (pyStrip s)
      = splitAux (pyStrip s ++ ((s.dropWhile isWS).reverse.takeWhile isWS).reverse) [] :=
        (splitAux_append_allws _ hws _ _).symm
    _ = splitAux (s.dropWhile isWS) [] := by rw [← key]
    _ = pySplit s := splitAux_dropWhile s

open DocumentProcessor

theorem clean_joinWords :
    ∀ ws : List Str, (∀ w ∈ ws, w ≠ [] ∧ ∀ c ∈ w, isWS c = false) →
      Clean (joinWords ws) ∧ (ws ≠ [] → joinWords ws ≠ [])
  | [], _ => ⟨clean_nil, fun h => absurd rfl h⟩
  | [w], h => by
    obtain ⟨hne, hw⟩ := h w (by simp)
    exact ⟨clean_word w hw, fun _ => hne⟩
  | w :: w' :: ws, h => by
    obtain ⟨hne, hw⟩ := h w (by simp)
    have ih := clean_joinWords (w' :: ws) (fun x hx => h x (by simp [hx]))
    have hj : joinWords (w :: w' :: ws) = w ++ ' ' :: joinWords (w' :: ws) := rfl
    rw [hj]
    constructor
    · exact clean_append_space w _ (clean_word w hw) hne ih.1 (ih.2 (by simp))
    · intro _ h0
      rcases List.append_eq_nil.mp h0 with ⟨h1, _⟩
      exact hne h1

theorem get_overlap_text_eq (os : Nat) (s : Str) :
    _get_overlap_text os s = joinWords
      (if (pySplit s).length > os then
        (if os = 0 then pySplit s else (pySplit s).drop ((pySplit s).length - os))
       else []) := rfl

theorem get_overlap_text_strip (os : Nat) (s : Str) :
    _get_overlap_text os (pyStrip s) = _get_overlap_text os s := by
  rw [get_overlap_text_eq, get_overlap_text_eq, pySplit_strip]

theorem get_overlap_text_clean (os : Nat) (s : Str) :
    Clean (_get_overlap_text os s) := by
  rw [get_overlap_text_eq]
  split
  · split
    · exact (clean_joinWords _ (fun w hw => pySplit_words s w hw)).1
    · exact (clean_joinWords _
        (fun w hw => pySplit_words s w (List.mem_of_mem_drop hw))).1
  · exact clean_nil

theorem prefix_pyStrip_append (a rest : Str) (ha : Clean a) (hane : a ≠ []) :
    a <+: pyStrip (a ++ rest) := by
  obtain ⟨c, t, rfl⟩ : ∃ c t, a = c :: t := by
    cases a with
    | nil => exact absurd rfl hane
    | cons c t => exact ⟨c, t, rfl⟩
  have hc : isWS c = false := ha.1 c rfl
  rw [pyStrip, List.cons_append, List.dropWhile_cons, if_neg (by simp [hc]),
    ← List.cons_append]
  refine List.reverse_suffix.mp ?_
  rw [List.reverse_reverse, List.reverse_append, List.dropWhile_append]
  split
  · rw [dropWhile_isWS_eq_self]
    intro d hd
    rw [List.head?_reverse] at hd
    exact ha.2 d hd
  · exact List.suffix_append _ _

/-- The running chunk of create_chunks is always Clean; every emitted chunk
whose overlap text is nonempty has that overlap text as a prefix of the next
chunk's text, and the first emitted chunk extends the incoming running
chunk. -/
theorem chunkLoop_chain (tok : Str → Nat) (cs os : Nat) (source : Str) :
    ∀ (sents : List Str) (current : Str) (cid : Nat), Clean current →
      List.Chain' (fun c c' => _get_overlap_text os c.text ≠ [] →
          _get_overlap_text os c.text <+: c'.text)
        (chunkLoop tok cs os source sents current cid) ∧
      ∀ h, (chunkLoop tok cs os source sents current cid).head? = some h →
        current ≠ [] → current <+: h.text
  | [], current, cid, hcur => by
    simp only [chunkLoop]
    by_cases hne : pyStrip current ≠ []
    · rw [if_pos hne]
      refine ⟨List.chain'_singleton _, ?_⟩
      intro h hh _
      rw [List.head?_cons, Option.some_inj] at hh
      subst hh
      show current <+: pyStrip current
      rw [pyStrip_of_clean current hcur]
    · rw [if_neg hne]
      exact ⟨List.chain'_nil, fun h hh _ => by simp at hh⟩
  | s :: rest, current, cid, hcur => by
    simp only [chunkLoop]
    by_cases hs : pyStrip s = []
    · rw [if_pos hs]
      exact chunkLoop_chain tok cs os source rest current cid hcur
    · rw [if_neg hs]
      by_cases hov : tok (if current ≠ [] then current ++ ' ' :: pyStrip s
          else pyStrip s) > cs ∧ current ≠ []
      · rw [if_pos hov]
        by_cases hol : _get_overlap_text os current ≠ []
        · rw [if_pos hol]
          have hnextclean : Clean (_get_overlap_text os current ++ ' ' :: pyStrip s) :=
            clean_append_space _ _ (get_overlap_text_clean os current) hol
              (clean_pyStrip s) hs
          have ih := chunkLoop_chain tok cs os source rest
            (_get_overlap_text os current ++ ' ' :: pyStrip s) (cid + 1) hnextclean
          refine ⟨List.chain'_cons'.mpr ⟨?_, ih.1⟩, ?_⟩
          · intro h hh hne2
            have hpre := ih.2 h hh (by simp)
            show _get_overlap_text os (pyStrip current) <+: h.text
            rw [get_overlap_text_strip os current]
            exact List.IsPrefix.trans (List.prefix_append _ _) hpre
          · intro h hh _
            rw [List.head?_cons, Option.some_inj] at hh
            subst hh
            show current <+: pyStrip current
            rw [pyStrip_of_clean current hcur]
        · rw [if_neg hol]
          have ih := chunkLoop_chain tok cs os source rest (pyStrip s) (cid + 1)
            (clean_pyStrip s)
          refine ⟨List.chain'_cons'.mpr ⟨?_, ih.1⟩, ?_⟩
          · intro h hh hne2
            exfalso
            refine hne2 ?_
            show _get_overlap_text os (pyStrip current) = []
            rw [get_overlap_text_strip os current]
            exact not_not.mp hol
          · intro h hh _
            rw [List.head?_cons, Option.some_inj] at hh
            subst hh
            show current <+: pyStrip current
            rw [pyStrip_of_clean current hcur]
      · rw [if_neg hov]
        by_cases hcne : current ≠ []
        · rw [if_pos hcne]
          have hclean2 : Clean (current ++ ' ' :: pyStrip s) :=
            clean_append_space _ _ hcur hcne (clean_pyStrip s) hs
          have ih := chunkLoop_chain tok cs os source rest
            (current ++ ' ' :: pyStrip s) cid hclean2
          refine ⟨ih.1, ?_⟩
          intro h hh _
          exact List.IsPrefix.trans (List.prefix_append _ _) (ih.2 h hh (by simp))
        · rw [if_neg hcne]
          have ih := chunkLoop_chain tok cs os source rest (pyStrip s) cid
            (clean_pyStrip s)
          refine ⟨ih.1, ?_⟩
          intro h hh hne2
          exact absurd hne2 hcne

theorem chain_get2 {α : Type} {R : α → α → Prop} :
    ∀ {l : List α}, List.Chain' R l → ∀ (i : Nat) (a b : α),
      l.get? i = some a → l.get? (i + 1) = some b → R a b
  | [], _, i, a, b, ha, _ => by simp at ha
  | [_], _, i, a, b, ha, hb => by
    cases i with
    | zero => simp at hb
    | succ j => simp at hb
  | x :: y :: t, h, i, a, b, ha, hb => by
    cases i with
    | zero =>
      rw [List.get?_cons_zero, Option.some_inj] at ha
      rw [List.get?_cons_succ, List.get?_cons_zero, Option.some_inj] at hb
      subst ha
      subst hb
      exact (List.chain'_cons.mp h).1
    | succ j =>
      rw [List.get?_cons_succ] at ha hb
      exact chain_get2 (List.chain'_cons.mp h).2 j a b ha hb

/-- C4: with a positive overlap_size, whenever a chunk has strictly more
than overlap_size words, its final overlap_size words (space-joined, as the
code joins them) are a prefix of the next chunk's text for the same
create_chunks call. This is the claim restricted to chunks with more than
overlap_size words; the unrestricted claim is refuted by
claim_C4_counterexample, since _get_overlap_text returns no overlap at all
for a closed chunk of at most overlap_size words. -/
theorem claim_C4_overlap_prefix (tok : Str → Nat) (cs os : Nat)
    (text source : Str) (i : Nat) (c c' : ChunkRec) (hos : 0 < os)
    (hc : (create_chunks tok cs os text source).get? i = some c)
    (hc' : (create_chunks tok cs os text source).get? (i + 1) = some c')
    (hlen : os < (pySplit c.text).length) :
    joinWords ((pySplit c.text).drop ((pySplit c.text).length - os)) <+: c'.text := by
  have hchain : List.Chain' (fun d d' => _get_overlap_text os d.text ≠ [] →
      _get_overlap_text os d.text <+: d'.text)
      (create_chunks tok cs os text source) :=
    (chunkLoop_chain tok cs os source (sentSplit text) [] 0 clean_nil).1
  have hR := chain_get2 hchain i c c' hc hc'
  have he : _get_overlap_text os c.text =
      joinWords ((pySplit c.text).drop ((pySplit c.text).length - os)) := by
    rw [get_overlap_text_eq, if_pos hlen, if_neg (Nat.pos_iff_ne_zero.mp hos)]
  have hne : joinWords ((pySplit c.text).drop ((pySplit c.text).length - os)) ≠ [] := by
    refine (clean_joinWords _
      (fun w hw => pySplit_words c.text w (List.mem_of_mem_drop hw))).2 ?_
    have hlen2 : ((pySplit c.text).drop ((pySplit c.text).length - os)).length = os := by
      rw [List.length_drop]
      omega
    intro h0
    rw [h0] at hlen2
    simp at hlen2
    omega
  rw [he] at hR
  exact hR hne

/-- C4 witness: with a one-word overlap, the word-count tokenizer and
chunk_size 3, the text with sentences of three and two words produces two
chunks, and the final word of the first chunk is a prefix of the second
chunk's text. -/
theorem claim_C4_witness :
    joinWords ((pySplit ("a b c.".data)).drop ((pySplit ("a b c.".data)).length - 1)) <+:
      ("c. d e.".data : Str) := by
  have h := claim_C4_overlap_prefix wcount 3 1 ("a b c. d e.".data) ("doc".data) 0
    { chunk_id := "doc_0".data, source := "doc".data, text := "a b c.".data,
      token_count := 3, chunk_index := 0 }
    { chunk_id := "doc_1".data, source := "doc".data, text := "c. d e.".data,
      token_count := 3, chunk_index := 1 }
    (by decide) (by decide) (by decide) (by decide)
  exact h

/-- C4 counterexample to the unrestricted claim: with overlap_size 5 and
the word-count tokenizer with chunk_size 3, the first chunk has only two
words, so _get_overlap_text returns no overlap at all and the final five
(that is, all) words of chunk 0 are not a prefix of chunk 1's text. -/
theorem claim_C4_counterexample :
    create_chunks wcount 3 5 ("Hi there. This is a long sentence here.".data)
        ("doc".data) =
      [{ chunk_id := "doc_0".data, source := "doc".data, text := "Hi there.".data,
         token_count := 2, chunk_index := 0 },
       { chunk_id := "doc_1".data, source := "doc".data,
         text := "This is a long sentence here.".data, token_count := 6,
         chunk_index := 1 }] ∧
    (0 : Nat) < 5 ∧
    (joinWords ((pySplit ("Hi there.".data)).drop
        ((pySplit ("Hi there.".data)).length - 5))).isPrefixOf
      ("This is a long sentence here.".data) = false := by
  refine ⟨by decide, by decide, by decide⟩

/-- Every chunk emitted by the sentence loop either fits the token budget
or records the token count of a string that is a single stripped sentence
of S or an overlap seed, a space and a stripped sentence of S, provided
the incoming running chunk itself has one of those shapes. -/
theorem chunkLoop_shape (tok : Str → Nat) (cs os : Nat) (source : Str)
    (S : List Str) :
    ∀ (sents : List Str) (current : Str) (cid : Nat),
      (∀ s ∈ sents, s ∈ S) → ChunkShape tok cs S current →
      ∀ c ∈ chunkLoop tok cs os source sents current cid,
        c.token_count ≤ cs ∨
        (∃ u, c.text = pyStrip u ∧ c.token_count = tok u ∧
          ((∃ s ∈ S, u = pyStrip s) ∨
           (∃ ov s, s ∈ S ∧ u = ov ++ ' ' :: pyStrip s)))
  | [], current, cid, _, hshape, c, hc => by
    simp only [chunkLoop] at hc
    by_cases hne : pyStrip current ≠ []
    · rw [if_pos hne] at hc
      rw [List.mem_singleton] at hc
      subst hc
      rcases hshape with h0 | h1 | h2 | h3
      · subst h0
        exact absurd rfl hne
      · exact Or.inl h1
      · exact Or.inr ⟨current, rfl, rfl, Or.inl h2⟩
      · obtain ⟨ov, s, hsS, hcur⟩ := h3
        exact Or.inr ⟨current, rfl, rfl, Or.inr ⟨ov, s, hsS, hcur⟩⟩
    · rw [if_neg hne] at hc
      exact absurd hc (List.not_mem_nil c)
  | s :: rest, current, cid, hmem, hshape, c, hc => by
    simp only [chunkLoop] at hc
    by_cases hs : pyStrip s = []
    · rw [if_pos hs] at hc
      exact chunkLoop_shape tok cs os source S rest current cid
        (fun x hx => hmem x (List.mem_cons_of_mem _ hx)) hshape c hc
    · rw [if_neg hs] at hc
      have hsS : s ∈ S := hmem s (List.mem_cons_self _ _)
      by_cases hov : tok (if current ≠ [] then current ++ ' ' :: pyStrip s
          else pyStrip s) > cs ∧ current ≠ []
      · rw [if_pos hov] at hc
        rcases List.mem_cons.mp hc with rfl | hc'
        · rcases hshape with h0 | h1 | h2 | h3
          · exact absurd h0 hov.2
          · exact Or.inl h1
          · exact Or.inr ⟨current, rfl, rfl, Or.inl h2⟩
          · obtain ⟨ov, t, htS, hcur⟩ := h3
            exact Or.inr ⟨current, rfl, rfl, Or.inr ⟨ov, t, htS, hcur⟩⟩
        · by_cases hol : _get_overlap_text os current ≠ []
          · rw [if_pos hol] at hc'
            exact chunkLoop_shape tok cs os source S rest _ (cid + 1)
              (fun x hx => hmem x (List.mem_cons_of_mem _ hx))
              (Or.inr (Or.inr (Or.inr ⟨_get_overlap_text os current, s, hsS, rfl⟩)))
              c hc'
          · rw [if_neg hol] at hc'
            exact chunkLoop_shape tok cs os source S rest _ (cid + 1)
              (fun x hx => hmem x (List.mem_cons_of_mem _ hx))
              (Or.inr (Or.inr (Or.inl ⟨s, hsS, rfl⟩))) c hc'
      · rw [if_neg hov] at hc
        have hnext : ChunkShape tok cs S
            (if current ≠ [] then current ++ ' ' :: pyStrip s else pyStrip s) := by
          by_cases hcne : current ≠ []
          · rw [if_pos hcne]
            refine Or.inr (Or.inl ?_)
            have : ¬ tok (if current ≠ [] then current ++ ' ' :: pyStrip s
                else pyStrip s) > cs := fun h => hov ⟨h, hcne⟩
            rw [if_pos hcne] at this
            exact Nat.le_of_not_lt this
          · rw [if_neg hcne]
            exact Or.inr (Or.inr (Or.inl ⟨s, hsS, rfl⟩))
        exact chunkLoop_shape tok cs os source S rest _ cid
          (fun x hx => hmem x (List.mem_cons_of_mem _ hx)) hnext c hc

/-- C5: every chunk of create_chunks either has token_count at most
chunk_size, or its token count is that of a string u (of which the chunk
text is the stripped form) that is either a single stripped sentence of
the input, or an overlap seed followed by a space and a stripped sentence.
The second disjunct widens the claim's only admitted exception: not only a
single sentence alone exceeding chunk_size can produce an oversized chunk,
but also an overlap-seeded chunk whose first sentence already overflows;
claim_C5_counterexample exhibits an oversized chunk that is not a single
input sentence. -/
theorem claim_C5_token_bound (tok : Str → Nat) (cs os : Nat)
    (text source : Str) (c : ChunkRec)
    (hc : c ∈ create_chunks tok cs os text source) :
    c.token_count ≤ cs ∨
    (∃ u, c.text = pyStrip u ∧ c.token_count = tok u ∧
      ((∃ s ∈ sentSplit text, u = pyStrip s) ∨
       (∃ ov s, s ∈ sentSplit text ∧ u = ov ++ ' ' :: pyStrip s))) :=
  chunkLoop_shape tok cs os source (sentSplit text) (sentSplit text) [] 0
    (fun _ hs => hs) (Or.inl rfl) c hc

/-- C5 witness: the middle chunk of a concrete run satisfies the size
disjunction. -/
theorem claim_C5_witness :
    (6 : Nat) ≤ 5 ∨
    (∃ u, ("a3 a4 a5. b1 b2 b3.".data : Str) = pyStrip u ∧ 6 = wcount u ∧
      ((∃ s ∈ sentSplit ("a1 a2 a3 a4 a5. b1 b2 b3. c1.".data), u = pyStrip s) ∨
       (∃ ov s, s ∈ sentSplit ("a1 a2 a3 a4 a5. b1 b2 b3. c1.".data) ∧
         u = ov ++ ' ' :: pyStrip s))) := by
  have h := claim_C5_token_bound wcount 5 3 ("a1 a2 a3 a4 a5. b1 b2 b3. c1.".data)
    ("doc".data)
    { chunk_id := "doc_1".data, source := "doc".data,
      text := "a3 a4 a5. b1 b2 b3.".data, token_count := 6, chunk_index := 1 }
    (by decide)
  exact h

/-- C5 counterexample to the claim as stated: with the word-count
tokenizer, chunk_size 5 and overlap_size 3, the overlap-seeded middle
chunk has token_count 6 > 5 yet is not a single input sentence. -/
theorem claim_C5_counterexample :
    create_chunks wcount 5 3 ("a1 a2 a3 a4 a5. b1 b2 b3. c1.".data) ("doc".data) =
      [{ chunk_id := "doc_0".data, source := "doc".data,
         text := "a1 a2 a3 a4 a5.".data, token_count := 5, chunk_index := 0 },
       { chunk_id := "doc_1".data, source := "doc".data,
         text := "a3 a4 a5. b1 b2 b3.".data, token_count := 6, chunk_index := 1 },
       { chunk_id := "doc_2".data, source := "doc".data,
         text := "b1 b2 b3. c1.".data, token_count := 4, chunk_index := 2 }] ∧
    ¬ (6 : Nat) ≤ 5 ∧
    ((sentSplit ("a1 a2 a3 a4 a5. b1 b2 b3. c1.".data)).map pyStrip).contains
      ("a3 a4 a5. b1 b2 b3.".data) = false := by
  refine ⟨by decide, by decide, by decide⟩
